import Mathlib

/-!
Verification of the move-evaluation and search engine of a two-player
tile-placement board game (`code/game/strategy.py`,
`code/learn/representation.py`).

The development shallowly embeds the Python source.  Floating-point
predicted values are modelled by an inductive type `Flt` with explicit
non-finite elements (NaN, plus and minus infinity) and rational finite
values; numpy primitives (`np.argmax`, `np.argsort`, `np.random.randint`,
`np.max` applied to a 0-d array, array slicing and concatenation) are
modelled by executable Lean functions reproducing their documented
semantics.  External collaborators (the rules engine: board, deck, score
objects) are opaque to the strategy code, so they enter the embedding as
function parameters; mutation of board/score/deck objects is modelled by
an explicit reference store so that the aliasing structure of the Python
code (in-place mutation, `get_copy`, `create_dummy_deck`) is preserved.
-/

/-- Model of an IEEE double as seen by the strategy code: NaN, the two
infinities, or a finite value (modelled as a rational). -/
inductive Flt where
  | nan : Flt
  | inf : Flt
  | ninf : Flt
  | fin (q : ℚ) : Flt
  deriving DecidableEq, Repr

namespace Flt

/-- Predicate: the value is NaN. -/
def isNan : Flt → Bool
  | nan => true
  | _ => false

/-- Predicate: the value is finite (neither NaN nor an infinity). -/
def isFinite : Flt → Bool
  | fin _ => true
  | _ => false

/-- IEEE strict greater-than: every comparison with NaN is false. -/
def gt : Flt → Flt → Bool
  | nan, _ => false
  | _, nan => false
  | inf, inf => false
  | inf, _ => true
  | ninf, _ => false
  | fin _, inf => false
  | fin _, ninf => true
  | fin a, fin b => decide (b < a)

/-- Total order used to model numpy sorting, where NaN sorts last:
`a` is placed before `b`. -/
def sortLe : Flt → Flt → Bool
  | _, nan => true
  | nan, _ => false
  | ninf, _ => true
  | _, ninf => false
  | _, inf => true
  | inf, _ => false
  | fin a, fin b => decide (a ≤ b)

/-- Negation of a float; NaN stays NaN. -/
def neg : Flt → Flt
  | nan => nan
  | inf => ninf
  | ninf => inf
  | fin q => fin (-q)

end Flt

/-- Result of `torch.squeeze` on a model-output array of shape `(n, 1)`:
for `n = 1` all axes collapse and a 0-d scalar remains, otherwise a 1-d
vector of length `n` is produced. -/
inductive NpVal where
  | scalar (x : Flt) : NpVal
  | vec (xs : List Flt) : NpVal
  deriving DecidableEq, Repr

/-- Collapse of a model-output batch of `n` values to the result of
`torch.squeeze`: a 0-d scalar when `n = 1`, else a 1-d vector. -/
def npSqueeze : List Flt → NpVal
  | [x] => NpVal.scalar x
  | xs => NpVal.vec xs

/-- Model of the guard
`values_subset if values_subset.shape else np.expand_dims(values_subset, 0)`:
a 0-d scalar (empty shape tuple, falsy) is expanded to a 1-element vector,
anything 1-d is kept. -/
def ensureVec : NpVal → NpVal
  | NpVal.scalar x => NpVal.vec [x]
  | v => v

/-- Contents of a possibly 0-d numpy value as a flat list. -/
def npvToList : NpVal → List Flt
  | NpVal.scalar x => [x]
  | NpVal.vec xs => xs

/-- Numpy basic slice `xs[lo:hi]` (out-of-range bounds are clipped). -/
def npSlice {α : Type} (xs : List α) (lo hi : Nat) : List α :=
  (xs.take hi).drop lo

/-- Helper loop of `npArgmax`: mirrors numpy's scan, which adopts a new
maximum on strict `>` and adopts (then stops at) the first NaN. -/
def npArgmaxAux : List Flt → Flt → Nat → Nat → Nat
  | [], _, _, best => best
  | x :: xs, mp, i, best =>
    if x.isNan then i
    else if Flt.gt x mp then npArgmaxAux xs x (i + 1) i
    else npArgmaxAux xs mp (i + 1) best

/-- Model of `np.argmax` on a float vector: the index of the first NaN if
any NaN is present, else the index of the first occurrence of the
maximum.  (`np.argmax` on an empty array raises; we return 0, and every
call site guarantees a non-empty input.) -/
def npArgmax : List Flt → Nat
  | [] => 0
  | x :: xs => if x.isNan then 0 else npArgmaxAux xs x 1 0

/-- Model of `np.max` on a float vector (first cases are irrelevant junk
for the empty input, on which numpy raises). -/
def npMaxFlt (xs : List Flt) : Flt :=
  xs.getD (npArgmax xs) Flt.nan

/-- Insertion into an ascending list of (value, index) pairs; a new pair
is placed after existing pairs with an equal value, making the sort
stable. -/
def npArgsortInsert (p : Flt × Nat) : List (Flt × Nat) → List (Flt × Nat)
  | [] => [p]
  | q :: qs => if Flt.sortLe q.1 p.1 then q :: npArgsortInsert p qs else p :: q :: qs

/-- Helper of `npArgsort`: stable insertion sort of indexed values. -/
def npArgsortAux : List (Flt × Nat) → List (Flt × Nat)
  | [] => []
  | p :: ps => npArgsortInsert p (npArgsortAux ps)

/-- Model of `np.argsort` on a float vector: indices that sort the values
ascending, NaN last.  (Modelled as a stable sort; no claim in this
development depends on the order among equal values.) -/
def npArgsort (xs : List Flt) : List Nat :=
  (npArgsortAux (xs.zip (List.range xs.length))).map (·.2)

/-- Helper loop of `argmaxInt`, first occurrence of the running maximum. -/
def argmaxIntAux : List Int → Int → Nat → Nat → Nat
  | [], _, _, best => best
  | x :: xs, mp, i, best =>
    if mp < x then argmaxIntAux xs x (i + 1) i
    else argmaxIntAux xs mp (i + 1) best

/-- Model of `np.argmax` on an integer vector: index of the first
occurrence of the maximum (0 on the empty input, on which numpy raises). -/
def argmaxInt : List Int → Nat
  | [] => 0
  | x :: xs => argmaxIntAux xs x 1 0

/-- Model of `np.max` on an integer vector (0 on the empty input, on
which numpy raises). -/
def npMaxInt : List Int → Int
  | [] => 0
  | x :: xs => xs.foldl max x

/-- Model of `np.min` on an integer vector (0 on the empty input, on
which numpy raises). -/
def npMinInt : List Int → Int
  | [] => 0
  | x :: xs => xs.foldl min x

/-- Model of `np.where(condition)[0]` over a vector: the ascending list
of indices at which the condition holds. -/
def npWhere {α : Type} (xs : List α) (p : α → Bool) : List Nat :=
  (xs.enum.filter (fun q => p q.2)).map (·.1)

/-- Model of `np.random.randint(low, high)`: the draw is reduced into the
half-open sample interval `[low, high)`; `high` is exclusive, so the
sample space is `{low, ..., high - 1}` and each residue is equally
likely for a uniform draw. -/
def npRandint (low high draw : Nat) : Nat :=
  low + draw % (high - low)

/-- Model of `np.max(a, 0)` applied to a 0-d (scalar) first argument: the
second positional argument of `np.max` is `axis`, not a second operand,
and reducing a 0-d array over its (degenerate) axis 0 returns the scalar
unchanged.  In particular this is not an elementwise floor at 0. -/
def npMaxScalarAxis (a : Int) (_axis : Nat) : Int :=
  a

/-- Model of the numpy negative-stop slice `xs[-k:]`: the last `k`
elements — except that for `k = 0` the Python slice `[-0:]` is `[0:]`,
the whole list. -/
def npTakeLast {α : Type} (xs : List α) (k : Nat) : List α :=
  if k = 0 then xs else xs.drop (xs.length - k)

/-- Embedding of `RLVanilla.run_model` over a pure per-row value
estimator `f` (spec §6: the estimator is a pure batch-in/batch-out
function with no visible state): the estimator is applied to every input
row and the `(n, 1)`-shaped output passes through `torch.squeeze`. -/
def runModel {Row : Type} (f : Row → Flt) (rows : List Row) : NpVal :=
  npSqueeze (rows.map f)

/-- Embedding of `RLVanilla.predict_values`: inputs are split into
`num_inputs // max_batch` full sub-batches plus a remainder sub-batch,
each sub-batch is run through the model, the (possibly 0-d) per-pass
outputs are re-expanded and concatenated after a seed cell `zeros((1,))`
which is finally dropped by `all_values[1:]`.  When fewer inputs than
`max_batch` exist the model output is returned directly (possibly 0-d). -/
def predictValues {Row : Type} (f : Row → Flt) (maxBatch : Nat) (rows : List Row) : NpVal :=
  let numInputs := rows.length
  let numFullMinibatches := numInputs / maxBatch
  let rem := numInputs % maxBatch
  if numFullMinibatches = 0 then runModel f rows
  else
    let numPasses := if rem > 0 then numFullMinibatches + 1 else numFullMinibatches
    let allValues := (List.range numPasses).foldl
      (fun acc i =>
        acc ++ npvToList (ensureVec (runModel f (npSlice rows (i * maxBatch) ((i + 1) * maxBatch)))))
      [Flt.fin 0]
    NpVal.vec (allValues.drop 1)

/-- Row-total of `updated_scores - original_score` (the per-candidate
total score gain used by Max and as the common tie-break). -/
def totalGain (originalScore updated : List Int) : Int :=
  (List.zipWith (fun a b => a - b) updated originalScore).sum

/-- Per-candidate would-be post-move score vectors: the composition of
the external `board.batch_calculate_move_scores` (`msFn`, per row) and
`score.batch_peek_next_scores` (`peek`, per row, first component). -/
def updatedScoresOf {M MS : Type} (moves : List M) (msFn : M → MS)
    (peek : MS → List Int) : List (List Int) :=
  moves.map fun m => peek (msFn m)

/-- Embedding of `choose_max_scoring_move`: maximize the total score
gain over the candidate batch (`np.argmax`, first occurrence). -/
def chooseMaxScoringMove {M MS : Type} [Inhabited M] (moves : List M)
    (originalScore : List Int) (msFn : M → MS) (peek : MS → List Int) : M :=
  let updatedScores := updatedScoresOf moves msFn peek
  let totalScoresDiff := updatedScores.map (totalGain originalScore)
  moves.getD (argmaxInt totalScoresDiff) default

/-- Color indices currently at the minimum of a score vector
(`np.where(original_score == min_score)[0]`). -/
def minIdxsOf (score : List Int) : List Nat :=
  npWhere score (fun v => v == npMinInt score)

/-- Per-candidate sum of post-move scores restricted to a given index
set (`updated_move_scores[:, min_idxs]` summed along axis 1). -/
def totalMinScoresOf {M MS : Type} (minIdxs : List Nat) (moves : List M)
    (msFn : M → MS) (peek : MS → List Int) : List Int :=
  (updatedScoresOf moves msFn peek).map fun u => (minIdxs.map fun j => u.getD j 0).sum

/-- Embedding of `choose_increase_min_move`: maximize the sum of
post-move scores at the pre-move minimum-score color indices; among
several maximizers take the one maximizing total score gain; when the
best aggregate is not positive, fall back to `choose_max_scoring_move`. -/
def chooseIncreaseMinMove {M MS : Type} [Inhabited M] (moves : List M)
    (originalScore : List Int) (msFn : M → MS) (peek : MS → List Int) : M :=
  let minIdxs := minIdxsOf originalScore
  let updatedScores := updatedScoresOf moves msFn peek
  let totalMinScores := totalMinScoresOf minIdxs moves msFn peek
  let maxTotalMinScore := npMaxInt totalMinScores
  if 0 < maxTotalMinScore then
    let maxIdxs := npWhere totalMinScores (fun v => v == maxTotalMinScore)
    if maxIdxs.length = 1 then moves.getD (maxIdxs.getD 0 0) default
    else
      let bestMoves := maxIdxs.map fun i => moves.getD i default
      let totalScoresDiff := maxIdxs.map fun i => totalGain originalScore (updatedScores.getD i [])
      bestMoves.getD (argmaxInt totalScoresDiff) default
  else
    chooseMaxScoringMove moves originalScore msFn peek

/-- Per-candidate total deficit of `choose_reduce_deficit_move`:
`other_score - updated + 36 + margin` per color, clamped below at 36,
minus 36, summed over colors. -/
def deficitTotalsOf {M MS : Type} (otherScore : List Int) (margin : Int)
    (moves : List M) (msFn : M → MS) (peek : MS → List Int) : List Int :=
  (updatedScoresOf moves msFn peek).map fun u =>
    ((List.zipWith (fun o v => o - v + 36 + margin) otherScore u).map
      fun x => (if x < 36 then 36 else x) - 36).sum

/-- Embedding of `choose_reduce_deficit_move`: minimize the summed
per-color deficit; when several candidates attain the minimum, take the
one maximizing total score gain (`possible_moves[min_diff_idxs][argmax]`). -/
def chooseReduceDeficitMove {M MS : Type} [Inhabited M] (moves : List M)
    (originalScore otherScore : List Int) (margin : Int)
    (msFn : M → MS) (peek : MS → List Int) : M :=
  let totalDiffs := deficitTotalsOf otherScore margin moves msFn peek
  let minDiff := npMinInt totalDiffs
  let minDiffIdxs := npWhere totalDiffs (fun v => v == minDiff)
  if minDiffIdxs.length = 1 then moves.getD (minDiffIdxs.getD 0 0) default
  else
    let totalScoresDiff := (updatedScoresOf moves msFn peek).map (totalGain originalScore)
    let minDiffSubset := minDiffIdxs.map fun i => totalScoresDiff.getD i 0
    let maxMinDiffIdx := argmaxInt minDiffSubset
    moves.getD (minDiffIdxs.getD maxMinDiffIdx 0) default

/-- Embedding of `choose_random_move`: the chosen index is
`np.random.randint(0, high=n - 1)`, a uniform draw from the half-open
interval `[0, n - 1)`, i.e. from the indices `{0, ..., n - 2}`. -/
def chooseRandomMove {M : Type} [Inhabited M] (moves : List M) (draw : Nat) : M :=
  moves.getD (npRandint 0 (moves.length - 1) draw) default

/-- Embedding of `choose_should_exchange`: forced true under inference,
otherwise the test `np.random.randint(0, high=1) == 1` on a draw from
the (single-point) sample space `[0, 1)`. -/
def chooseShouldExchange (inference : Bool) (draw : Nat) : Bool :=
  if inference then true
  else npRandint 0 1 draw == 1

/-- Margin field of `MixedStrategy3` after `n` calls to `choose_move`:
it starts at 15 and every call performs
`self.margin = np.max(self.margin - 1, 0)`. -/
def mixed3MarginAfter : Nat → Int
  | 0 => 15
  | n + 1 => npMaxScalarAxis (mixed3MarginAfter n - 1) 0

/-- The `(margin, count)` fields of `MixedStrategy4` after `n` calls to
`choose_move`: margin starts at 5 and count at 4; a call with `count = 0`
performs `self.margin = np.max(self.margin - 1, 0)` and resets count to
4, any other call decrements count. -/
def mixed4StateAfter : Nat → Int × Nat
  | 0 => (5, 4)
  | n + 1 =>
    let s := mixed4StateAfter n
    if s.2 = 0 then (npMaxScalarAxis (s.1 - 1) 0, 4) else (s.1, s.2 - 1)

/-- Embedding of `RepresentationsBuffer` (`learn/representation.py`).
The tensor fields are kept as lists of opaque per-row values; `size` and
`empty` mirror the `int32` / `uint8` (0 or 1) numba fields. -/
structure ReprsBuffer (BR DR : Type) where
  size : Nat
  empty : Nat
  boardRepr : List BR
  deckRepr : List DR
  scoresRepr : List (List Int × List Int)
  generalRepr : List (List Nat)
  valuesRepr : List (List Nat)
  turnOfRepr : List Nat

/-- Freshly constructed `RepresentationsBuffer()`: `size = 0`,
`empty = 1`, array fields uninitialized (modelled as empty). -/
def ReprsBuffer.init {BR DR : Type} : ReprsBuffer BR DR :=
  ⟨0, 1, [], [], [], [], [], []⟩

/-- Embedding of `RepresentationsBuffer.set_batched_reprs_from_scratch`:
fields are overwritten, `size` grows by the batch size, and the `empty`
flag is set to 0 unconditionally. -/
def ReprsBuffer.setBatchedReprsFromScratch {BR DR : Type} (buf : ReprsBuffer BR DR)
    (boardRepr : List BR) (deckRepr : List DR)
    (scoresRepr : List (List Int × List Int)) (generalRepr : List (List Nat))
    (turnOfRepr : List Nat) (valuesRepr : List (List Nat)) : ReprsBuffer BR DR :=
  { buf with
    boardRepr := boardRepr
    deckRepr := deckRepr
    scoresRepr := scoresRepr
    generalRepr := generalRepr
    valuesRepr := valuesRepr
    turnOfRepr := turnOfRepr
    size := buf.size + boardRepr.length
    empty := 0 }

/-- Embedding of `RepresentationsBuffer.set_single_reprs_from_scratch`:
every field is a 1-row array (`np.expand_dims(..., 0)`), `size` grows by
1 and the `empty` flag is cleared. -/
def ReprsBuffer.setSingleReprsFromScratch {BR DR : Type} (buf : ReprsBuffer BR DR)
    (boardRepr : BR) (deckRepr : DR) (scoresRepr : List Int × List Int)
    (generalRepr : List Nat) (turnOfRepr : Nat) (valuesRepr : List Nat) :
    ReprsBuffer BR DR :=
  { buf with
    boardRepr := [boardRepr]
    deckRepr := [deckRepr]
    scoresRepr := [scoresRepr]
    generalRepr := [generalRepr]
    valuesRepr := [valuesRepr]
    turnOfRepr := [turnOfRepr]
    size := buf.size + 1
    empty := 0 }

/-- Numpy fancy indexing `arr[idxs]` over a list (all call sites use
in-range index vectors produced by `np.where`). -/
def fancyIndex {α : Type} (xs : List α) (idxs : List Nat) : List α :=
  idxs.filterMap xs.get?

/-- External collaborators of `RepresentationGenerator` (the rules
engine: board, deck, score and player objects, none of which are part of
the encoder source).  Batch operations are given per row. -/
structure ReprExt (B D S M TP MS BR DR ND : Type) where
  batchGetUpdatedStates : B → M → BR
  tileFields : M → TP
  batchPeekNextStates : D → TP → DR
  batchCalculateMoveScores : B → M → MS
  batchPeekNextScores : S → MS → List Int × Nat × Nat
  batchPeekNextDecks : D → TP → ND
  batchPeekCanExchangeTiles : ND → List Int → Nat
  getScore : S → List Int
  moveNum : B → Nat
  getBoardStateCopy : B → BR
  getDeckStateCopy : D → DR
  getScoreCopy : S → List Int

/-- Embedding of `RepresentationGenerator.generate_batched`.  `tileFields`
models the column slice `possible_moves[:, 6:8]`; per-candidate rows of
the batched external calls are produced by mapping over the candidate
list, `np.concatenate` doubling by list append, `np.where` filtering by
`npWhere` and fancy indexing by `fancyIndex`. -/
def generateBatched {B D S M TP MS BR DR ND : Type}
    (ext : ReprExt B D S M TP MS BR DR ND) (board : B) (deck : D)
    (score otherScore : S) (turnOf : Nat) (possibleMoves : List M) :
    ReprsBuffer BR DR × List M :=
  let b := possibleMoves.length
  let boardRepr := possibleMoves.map (ext.batchGetUpdatedStates board)
  let deckRepr := possibleMoves.map fun m => ext.batchPeekNextStates deck (ext.tileFields m)
  let moveScores := possibleMoves.map (ext.batchCalculateMoveScores board)
  let peeked := moveScores.map (ext.batchPeekNextScores score)
  let updatedScores := peeked.map (·.1)
  let ingenious := peeked.map (·.2.1)
  let numIngenious := peeked.map (·.2.2)
  let nextDecks := possibleMoves.map fun m => ext.batchPeekNextDecks deck (ext.tileFields m)
  let canExchange := (nextDecks.zip updatedScores).map fun p =>
    ext.batchPeekCanExchangeTiles p.1 p.2
  let otherScoreVec := ext.getScore otherScore
  let scoresRepr := updatedScores.map fun u => (u, otherScoreVec)
  let generalReprDontExchange := ((ingenious.zip numIngenious).zip canExchange).map
    fun p => [p.1.1, p.1.2, p.2, 0, ext.moveNum board]
  let generalReprDoExchange := ((ingenious.zip numIngenious).zip canExchange).map
    fun p => [p.1.1, p.1.2, p.2, 1, ext.moveNum board]
  let possibleMovesStacked := possibleMoves ++ possibleMoves
  let boardReprStacked := boardRepr ++ boardRepr
  let deckReprStacked := deckRepr ++ deckRepr
  let scoresReprStacked := scoresRepr ++ scoresRepr
  let generalReprStacked := generalReprDontExchange ++ generalReprDoExchange
  let canExchangeStacked := canExchange ++ canExchange
  let shouldExchangeStacked := List.replicate b 0 ++ List.replicate b 1
  let validIdxs := npWhere (canExchangeStacked.zip shouldExchangeStacked)
    fun p => (p.1 == 0 && p.2 == 0) || p.1 == 1
  let possibleMovesSubset := fancyIndex possibleMovesStacked validIdxs
  let boardReprSubset := fancyIndex boardReprStacked validIdxs
  let deckReprSubset := fancyIndex deckReprStacked validIdxs
  let scoresReprSubset := fancyIndex scoresReprStacked validIdxs
  let generalReprSubset := fancyIndex generalReprStacked validIdxs
  let turnOfRepr := List.replicate validIdxs.length turnOf
  let valuesRepr := List.replicate validIdxs.length [0, 0]
  let newReprsBuffer := ReprsBuffer.init.setBatchedReprsFromScratch
    boardReprSubset deckReprSubset scoresReprSubset generalReprSubset
    turnOfRepr valuesRepr
  (newReprsBuffer, possibleMovesSubset)

/-- Embedding of `RepresentationGenerator.generate` (single-state
encoding, used for logging/replay storage). -/
def generateSingle {B D S M TP MS BR DR ND : Type}
    (ext : ReprExt B D S M TP MS BR DR ND) (board : B) (deck : D)
    (score otherScore : S) (ingenious numIngenious canExchange shouldExchange : Nat)
    (turnOf : Nat) : ReprsBuffer BR DR :=
  let boardRepr := ext.getBoardStateCopy board
  let deckRepr := ext.getDeckStateCopy deck
  let scoresRepr := (ext.getScoreCopy score, ext.getScoreCopy otherScore)
  let generalRepr := [ingenious, numIngenious, canExchange,
    shouldExchange * canExchange, ext.moveNum board]
  let valuesRepr := [0, 0]
  ReprsBuffer.init.setSingleReprsFromScratch boardRepr deckRepr scoresRepr
    generalRepr turnOf valuesRepr

/-- Reference store for the mutable rules-engine objects handled by the
search code.  Python objects (boards, score ledgers, decks) live on a
heap and are passed by reference; the strategy methods mutate some of
them in place (`mock_move`) and create others (`get_copy`,
`create_dummy_deck`).  Cells are addressed by list index. -/
structure Store (B S D : Type) where
  boards : List B
  scores : List S
  decks : List D

/-- External collaborators of the RL strategies (`strategy.py` imports
them from the rules engine, the encoder and torch; all opaque here).
`prepareInputs` stands for `prepare_model_inputs`'s augment/normalise/
prepare chain, which touches only the representation buffer, and
`model` is the pure per-row value estimator of spec §6.
`findWinnerFast` and `getOtherPlayer` are `game.utils` functions. -/
structure SearchExt (B S D M MC DB MS TP V RT Row : Type) where
  getAllPossibleMoves : B → List MC
  deckBag : D → DB
  combineMovesAndDeck : List MC → DB → List M
  reprFn : B → D → S → S → Nat → List M → RT × List M
  prepareInputs : RT → List Row
  model : Row → Flt
  maxBatch : Nat
  generalShouldExchange : RT → Nat → Nat
  calculateMoveScore : B → M → MS
  updateScore : S → MS → S × Bool
  updateBoard : B → M → B
  tileToPlay : M → TP
  playTile : D → TP → D
  gameIsFinished : B → Bool
  getScoreCopy : S → V
  findWinnerFast : V → V → Nat
  getOtherPlayer : Nat → Nat
  createDummyDeck : D → D

section SearchEngine

variable {B S D M MC DB MS TP V RT Row : Type}

/-- Read a board cell. -/
def Store.getBoard [Inhabited B] (st : Store B S D) (i : Nat) : B :=
  st.boards.getD i default

/-- Read a score cell. -/
def Store.getScore [Inhabited S] (st : Store B S D) (i : Nat) : S :=
  st.scores.getD i default

/-- Read a deck cell. -/
def Store.getDeck [Inhabited D] (st : Store B S D) (i : Nat) : D :=
  st.decks.getD i default

/-- Overwrite a board cell in place (`board.update_board`). -/
def Store.setBoard (st : Store B S D) (i : Nat) (b : B) : Store B S D :=
  { st with boards := st.boards.set i b }

/-- Overwrite a score cell in place (`score.update_score`). -/
def Store.setScore (st : Store B S D) (i : Nat) (s : S) : Store B S D :=
  { st with scores := st.scores.set i s }

/-- Overwrite a deck cell in place (`deck.play_tile`). -/
def Store.setDeck (st : Store B S D) (i : Nat) (d : D) : Store B S D :=
  { st with decks := st.decks.set i d }

/-- Create a new board cell (`board_original.get_copy()` allocates an
independent object); returns the new store and the fresh reference. -/
def Store.allocBoard (st : Store B S D) (b : B) : Store B S D × Nat :=
  ({ st with boards := st.boards ++ [b] }, st.boards.length)

/-- Create a new score cell (`score_original.get_copy()`). -/
def Store.allocScore (st : Store B S D) (s : S) : Store B S D × Nat :=
  ({ st with scores := st.scores ++ [s] }, st.scores.length)

/-- Create a new deck cell (`deck_original.get_copy()` or
`deck.create_dummy_deck()`). -/
def Store.allocDeck (st : Store B S D) (d : D) : Store B S D × Nat :=
  ({ st with decks := st.decks ++ [d] }, st.decks.length)

/-- Embedding of `RLVanilla.get_representations` on object values:
enumerate the placement combinations, combine with the deck bag, and
hand the candidate batch to the injected `repr_fn`. -/
def getRepresentationsV (ext : SearchExt B S D M MC DB MS TP V RT Row)
    (board : B) (deck : D) (score otherScore : S) (turnOf : Nat) : RT × List M :=
  let moveCombinations := ext.getAllPossibleMoves board
  let possibleMoves := ext.combineMovesAndDeck moveCombinations (ext.deckBag deck)
  ext.reprFn board deck score otherScore turnOf possibleMoves

/-- The `get_representations` call as performed by the search code: the
four objects are read from their store cells (pure reads) and passed on. -/
def getRepresentationsRef [Inhabited B] [Inhabited S] [Inhabited D]
    (ext : SearchExt B S D M MC DB MS TP V RT Row)
    (rb rd rs ros turnOf : Nat) (st : Store B S D) : RT × List M :=
  getRepresentationsV ext (st.getBoard rb) (st.getDeck rd) (st.getScore rs)
    (st.getScore ros) turnOf

/-- Composition `prepare_model_inputs` then `predict_values` applied to
a representation buffer, as a flat list of predicted values. -/
def modelValuesOf (ext : SearchExt B S D M MC DB MS TP V RT Row) (reprs : RT) : List Flt :=
  npvToList (predictValues ext.model ext.maxBatch (ext.prepareInputs reprs))

/-- Embedding of `_RLNPlySearch.mock_move`: compute the move score from
the pre-move board, mutate the score cell (`update_score`, returning the
ingenious flag), mutate the board cell (`update_board`), then mutate the
deck cell (`play_tile` on the drawn-tile fields of the move). -/
def mockMove [Inhabited B] [Inhabited S] [Inhabited D]
    (ext : SearchExt B S D M MC DB MS TP V RT Row)
    (chosenMove : M) (rb rs rd : Nat) (st : Store B S D) : Store B S D × Bool :=
  let board := st.getBoard rb
  let moveScore := ext.calculateMoveScore board chosenMove
  let upd := ext.updateScore (st.getScore rs) moveScore
  let st1 := st.setScore rs upd.1
  let st2 := st1.setBoard rb (ext.updateBoard board chosenMove)
  let st3 := st2.setDeck rd (ext.playTile (st.getDeck rd) (ext.tileToPlay chosenMove))
  (st3, upd.2)

/-- Embedding of `_RLNPlySearch.mock_turn` on state
`(board, score, other_score, deck)` held at cells `(rb, rs, ros, rd)`:
apply the move, stop with the game outcome (`find_winner_fast` against
`turn_of`) on a finished board, stop with the incoming value on a
non-ingenious move, else re-encode, re-predict and loop on the new
argmax move.  The unbounded Python `while True` loop is given explicit
`fuel`; every property proved below holds for all fuel values. -/
def mockTurn [Inhabited B] [Inhabited S] [Inhabited D] [Inhabited M]
    (ext : SearchExt B S D M MC DB MS TP V RT Row)
    (fuel : Nat) (move : M) (moveValue : Flt) (rb rs ros rd turnOf : Nat)
    (st : Store B S D) : Store B S D × Bool × Flt :=
  match fuel with
  | 0 => (st, false, moveValue)
  | fuel' + 1 =>
    let res := mockMove ext move rb rs rd st
    let st1 := res.1
    if ext.gameIsFinished (st1.getBoard rb) then
      let p1Score := ext.getScoreCopy (st1.getScore rs)
      let p2Score := ext.getScoreCopy (st1.getScore ros)
      let winner := ext.findWinnerFast p1Score p2Score
      (st1, true, if winner = turnOf then Flt.fin 1 else Flt.fin (-1))
    else if res.2 = false then (st1, false, moveValue)
    else
      let rm := getRepresentationsRef ext rb rd rs ros turnOf st1
      let moveValues := modelValuesOf ext rm.1
      let moveIdx := npArgmax moveValues
      mockTurn ext fuel' (rm.2.getD moveIdx default) (moveValues.getD moveIdx Flt.nan)
        rb rs ros rd turnOf st1

/-- Loop body of `RL2PlySearch.choose_move` for top-k index `i`: copy
the four original objects into fresh cells, run the mover's mock turn on
the copies, and unless the game ended run the opponent's best response
(encoded from a dummy deck) and record the negated value. -/
def branchStep2 [Inhabited B] [Inhabited S] [Inhabited D] [Inhabited M]
    (ext : SearchExt B S D M MC DB MS TP V RT Row)
    (fuel rbO rdO rsO rosO turnOf : Nat) (movesOriginal : List M)
    (moveValuesOriginal : List Flt) (topKIndices : List Nat)
    (acc : Store B S D × List Flt) (i : Nat) : Store B S D × List Flt :=
  let st := acc.1
  let a1 := st.allocBoard (st.getBoard rbO)
  let a2 := a1.1.allocScore (a1.1.getScore rsO)
  let a3 := a2.1.allocScore (a2.1.getScore rosO)
  let a4 := a3.1.allocDeck (a3.1.getDeck rdO)
  let rb := a1.2
  let rs := a2.2
  let ros := a3.2
  let rd := a4.2
  let moveIdx := topKIndices.getD i 0
  let move := movesOriginal.getD moveIdx default
  let moveValue := moveValuesOriginal.getD moveIdx Flt.nan
  let r1 := mockTurn ext fuel move moveValue rb rs ros rd turnOf a4.1
  if r1.2.1 then (r1.1, acc.2 ++ [r1.2.2])
  else
    let a5 := r1.1.allocDeck (ext.createDummyDeck (r1.1.getDeck rd))
    let rm := getRepresentationsRef ext rb a5.2 ros rs (ext.getOtherPlayer turnOf) a5.1
    let moveValues := modelValuesOf ext rm.1
    let moveIdx2 := npArgmax moveValues
    let move2 := rm.2.getD moveIdx2 default
    let moveValue2 := moveValues.getD moveIdx2 Flt.nan
    let a6 := a5.1.allocDeck (ext.createDummyDeck (a5.1.getDeck rd))
    let r2 := mockTurn ext fuel move2 moveValue2 rb ros rs a6.2
      (ext.getOtherPlayer turnOf) a6.1
    (r2.1, acc.2 ++ [r2.2.2.neg])

/-- Embedding of `RL2PlySearch.choose_move` over original object cells
`(rbO, rdO, rsO, rosO)`: encode and predict the real candidate batch,
keep the top `min(8, n)` candidates by ascending argsort, run
`branchStep2` for each, and return the final store together with the
winning move, its depth-0 should-exchange field and the branch value. -/
def chooseMove2Ply [Inhabited B] [Inhabited S] [Inhabited D] [Inhabited M]
    (ext : SearchExt B S D M MC DB MS TP V RT Row)
    (fuel rbO rdO rsO rosO turnOf : Nat) (st0 : Store B S D) :
    Store B S D × M × Nat × Flt :=
  let rm := getRepresentationsRef ext rbO rdO rsO rosO turnOf st0
  let movesOriginal := rm.2
  let moveValuesOriginal := modelValuesOf ext rm.1
  let numToSearch := min 8 movesOriginal.length
  let topKIndices := npTakeLast (npArgsort moveValuesOriginal) numToSearch
  let res := (List.range numToSearch).foldl
    (branchStep2 ext fuel rbO rdO rsO rosO turnOf movesOriginal moveValuesOriginal topKIndices)
    (st0, [])
  let bestMoveIdx := topKIndices.getD (npArgmax res.2) 0
  (res.1, movesOriginal.getD bestMoveIdx default,
    ext.generalShouldExchange rm.1 bestMoveIdx, npMaxFlt res.2)

/-- Loop body of `RL3PlySearch.choose_move`: as `branchStep2`, but a
branch in which the opponent's response does not end the game continues
with the mover's best continuation — re-encoded from the real copied
deck with `turn_of`, yet simulated by `mock_turn` called with
`get_other_player(turn_of)` exactly as in the source — and records that
third value un-negated. -/
def branchStep3 [Inhabited B] [Inhabited S] [Inhabited D] [Inhabited M]
    (ext : SearchExt B S D M MC DB MS TP V RT Row)
    (fuel rbO rdO rsO rosO turnOf : Nat) (movesOriginal : List M)
    (moveValuesOriginal : List Flt) (topKIndices : List Nat)
    (acc : Store B S D × List Flt) (i : Nat) : Store B S D × List Flt :=
  let st := acc.1
  let a1 := st.allocBoard (st.getBoard rbO)
  let a2 := a1.1.allocScore (a1.1.getScore rsO)
  let a3 := a2.1.allocScore (a2.1.getScore rosO)
  let a4 := a3.1.allocDeck (a3.1.getDeck rdO)
  let rb := a1.2
  let rs := a2.2
  let ros := a3.2
  let rd := a4.2
  let moveIdx := topKIndices.getD i 0
  let move := movesOriginal.getD moveIdx default
  let moveValue := moveValuesOriginal.getD moveIdx Flt.nan
  let r1 := mockTurn ext fuel move moveValue rb rs ros rd turnOf a4.1
  if r1.2.1 then (r1.1, acc.2 ++ [r1.2.2])
  else
    let a5 := r1.1.allocDeck (ext.createDummyDeck (r1.1.getDeck rd))
    let rm := getRepresentationsRef ext rb a5.2 ros rs (ext.getOtherPlayer turnOf) a5.1
    let moveValues := modelValuesOf ext rm.1
    let moveIdx2 := npArgmax moveValues
    let move2 := rm.2.getD moveIdx2 default
    let moveValue2 := moveValues.getD moveIdx2 Flt.nan
    let a6 := a5.1.allocDeck (ext.createDummyDeck (a5.1.getDeck rd))
    let r2 := mockTurn ext fuel move2 moveValue2 rb ros rs a6.2
      (ext.getOtherPlayer turnOf) a6.1
    if r2.2.1 then (r2.1, acc.2 ++ [r2.2.2.neg])
    else
      let rm3 := getRepresentationsRef ext rb rd rs ros turnOf r2.1
      let moveValues3 := modelValuesOf ext rm3.1
      let moveIdx3 := npArgmax moveValues3
      let move3 := rm3.2.getD moveIdx3 default
      let moveValue3 := moveValues3.getD moveIdx3 Flt.nan
      let r3 := mockTurn ext fuel move3 moveValue3 rb rs ros rd
        (ext.getOtherPlayer turnOf) r2.1
      (r3.1, acc.2 ++ [r3.2.2])

/-- Embedding of `RL3PlySearch.choose_move` (same frame as the 2-ply
search with `branchStep3` branches). -/
def chooseMove3Ply [Inhabited B] [Inhabited S] [Inhabited D] [Inhabited M]
    (ext : SearchExt B S D M MC DB MS TP V RT Row)
    (fuel rbO rdO rsO rosO turnOf : Nat) (st0 : Store B S D) :
    Store B S D × M × Nat × Flt :=
  let rm := getRepresentationsRef ext rbO rdO rsO rosO turnOf st0
  let movesOriginal := rm.2
  let moveValuesOriginal := modelValuesOf ext rm.1
  let numToSearch := min 8 movesOriginal.length
  let topKIndices := npTakeLast (npArgsort moveValuesOriginal) numToSearch
  let res := (List.range numToSearch).foldl
    (branchStep3 ext fuel rbO rdO rsO rosO turnOf movesOriginal moveValuesOriginal topKIndices)
    (st0, [])
  let bestMoveIdx := topKIndices.getD (npArgmax res.2) 0
  (res.1, movesOriginal.getD bestMoveIdx default,
    ext.generalShouldExchange rm.1 bestMoveIdx, npMaxFlt res.2)

/-- Embedding of `RLVanilla.choose_move`: encode the candidate batch,
predict all values, pick `np.argmax`, and read the should-exchange flag
from the winning row's general-info field. -/
def chooseMoveVanilla [Inhabited M] (ext : SearchExt B S D M MC DB MS TP V RT Row)
    (board : B) (deck : D) (score otherScore : S) (turnOf : Nat) : M × Nat × Flt :=
  let rm := getRepresentationsV ext board deck score otherScore turnOf
  let moveValues := modelValuesOf ext rm.1
  let moveIdx := npArgmax moveValues
  (rm.2.getD moveIdx default, ext.generalShouldExchange rm.1 moveIdx,
    moveValues.getD moveIdx Flt.nan)

/-- Predicted-value vector seen by `RLVanilla.choose_move`. -/
def vanillaValues (ext : SearchExt B S D M MC DB MS TP V RT Row)
    (board : B) (deck : D) (score otherScore : S) (turnOf : Nat) : List Flt :=
  modelValuesOf ext (getRepresentationsV ext board deck score otherScore turnOf).1

end SearchEngine

/-- Modelled from the spec: `game.utils.get_other_player` is imported by
`strategy.py` but its source is not under `src/`.  Per spec §4.4 it
switches perspective between the two player ids; the training loop's
`winner == 1` test and the UI's "Player {1,2}" labels fix the ids as 1
and 2. -/
def getOtherPlayerSpec (player : Nat) : Nat :=
  if player = 1 then 2 else 1

/-- Insertion of an integer into an ascending list (helper of the
sorted score-vector comparison). -/
def insertAscInt (x : Int) : List Int → List Int
  | [] => [x]
  | y :: ys => if x ≤ y then x :: y :: ys else y :: insertAscInt x ys

/-- Ascending insertion sort of a score vector. -/
def sortAscInt : List Int → List Int
  | [] => []
  | x :: xs => insertAscInt x (sortAscInt xs)

/-- Lexicographic comparison of two ascending score vectors: the first
position where they differ decides and the larger entry wins.  Returns
1 when the first vector wins, 2 when the second wins, 0 for a draw. -/
def cmpAscScores : List Int → List Int → Nat
  | a :: as', b :: bs => if a < b then 2 else if b < a then 1 else cmpAscScores as' bs
  | _, _ => 0

/-- Modelled from the spec: `game.utils.find_winner_fast` is imported by
`strategy.py` but its source is not under `src/`.  Spec §4.4 says the
mock-turn terminal value is the actual game outcome "determined by
comparing final score vectors" and §6's winner operation returns a
"player id or draw"; the Ingenious win rule compares the weakest colours
first, so the comparison is the sorted-ascending lexicographic order of
the two final score vectors: 1 when the first argument (`p1_score`)
wins, 2 when the second wins, 0 for a draw. -/
def findWinnerFastSpec (p1Score p2Score : List Int) : Nat :=
  cmpAscScores (sortAscInt p1Score) (sortAscInt p2Score)

/-- Shorthand for the concrete collaborator instantiation used by the
closed-run theorems: boards count the applied moves, scores accumulate
an integer total, decks and moves are bare numbers, representation
buffers are the predicted-value rows themselves. -/
abbrev ConcreteExt := SearchExt Nat Int Nat Nat Nat Nat Int Nat (List Int) (List Flt) Flt

/-- Concrete rules-engine instance driving a deterministic 3-ply search
run: one candidate move everywhere (predicted value 0), every move
scores 5, no move is ingenious, and the game ends as soon as three
moves have been applied to the board. -/
def extRun : ConcreteExt where
  getAllPossibleMoves := fun _ => [0]
  deckBag := fun _ => 0
  combineMovesAndDeck := fun mcs _ => mcs
  reprFn := fun _ _ _ _ _ pm => (pm.map fun _ => Flt.fin 0, pm)
  prepareInputs := id
  model := id
  maxBatch := 1024
  generalShouldExchange := fun _ _ => 0
  calculateMoveScore := fun _ _ => 5
  updateScore := fun s ms => (s + ms, false)
  updateBoard := fun b _ => b + 1
  tileToPlay := fun _ => 0
  playTile := fun d _ => d
  gameIsFinished := fun b => decide (3 ≤ b)
  getScoreCopy := fun s => [s]
  findWinnerFast := findWinnerFastSpec
  getOtherPlayer := getOtherPlayerSpec
  createDummyDeck := fun _ => 0

/-- Initial store for the concrete runs: one live board (0 moves
applied), the two live player scores (both 0), one live deck. -/
def stRun : Store Nat Int Nat :=
  ⟨[0], [0, 0], [0]⟩

/-- Concrete collaborator instance whose candidate batch has two rows
with predicted values `[0, NaN]` (a finite value and a NaN). -/
def extNan : ConcreteExt where
  getAllPossibleMoves := fun _ => [0, 1]
  deckBag := fun _ => 0
  combineMovesAndDeck := fun mcs _ => mcs
  reprFn := fun _ _ _ _ _ pm => (pm.map fun m => if m = 1 then Flt.nan else Flt.fin 0, pm)
  prepareInputs := id
  model := id
  maxBatch := 1024
  generalShouldExchange := fun _ _ => 0
  calculateMoveScore := fun _ _ => 5
  updateScore := fun s ms => (s + ms, false)
  updateBoard := fun b _ => b + 1
  tileToPlay := fun _ => 0
  playTile := fun d _ => d
  gameIsFinished := fun b => decide (3 ≤ b)
  getScoreCopy := fun s => [s]
  findWinnerFast := findWinnerFastSpec
  getOtherPlayer := getOtherPlayerSpec
  createDummyDeck := fun _ => 0

/-- Trivial concrete rules-engine instance for the encoder. -/
def extRepr : ReprExt Unit Unit Unit Unit Unit Unit Unit Unit Unit where
  batchGetUpdatedStates := fun _ _ => ()
  tileFields := fun _ => ()
  batchPeekNextStates := fun _ _ => ()
  batchCalculateMoveScores := fun _ _ => ()
  batchPeekNextScores := fun _ _ => ([], 0, 0)
  batchPeekNextDecks := fun _ _ => ()
  batchPeekCanExchangeTiles := fun _ _ => 0
  getScore := fun _ => []
  moveNum := fun _ => 0
  getBoardStateCopy := fun _ => ()
  getDeckStateCopy := fun _ => ()
  getScoreCopy := fun _ => []

/-- Frame relation between two stores: every cell that existed in `st0`
holds the same object value in `st`, and `st` may only have grown.  The
RL search's simulation steps preserve this relation relative to the
store they started from, which is exactly the claim that the live game
state is never mutated. -/
structure StorePreserves {B S D : Type} (st0 st : Store B S D) : Prop where
  boardsLen : st0.boards.length ≤ st.boards.length
  scoresLen : st0.scores.length ≤ st.scores.length
  decksLen : st0.decks.length ≤ st.decks.length
  boardsEq : ∀ i, i < st0.boards.length → st.boards[i]? = st0.boards[i]?
  scoresEq : ∀ i, i < st0.scores.length → st.scores[i]? = st0.scores[i]?
  decksEq : ∀ i, i < st0.decks.length → st.decks[i]? = st0.decks[i]?

/-- Per-candidate total score gains (`updated_move_scores` minus the
original score, summed per row), shared by the tie-breaks. -/
def totalGainsOf {M MS : Type} (originalScore : List Int) (moves : List M)
    (msFn : M → MS) (peek : MS → List Int) : List Int :=
  (updatedScoresOf moves msFn peek).map (totalGain originalScore)

/-- Post-move score table of the spec scenario for IncreaseMin: the
mover's score is `[18, 0, 0, 0, 0, 0]` (one colour capped) and every
candidate touches only the capped colour, so each would-be post-move
vector is the unchanged `[18, 0, 0, 0, 0, 0]`. -/
def peekScenario4 : Nat → List Int :=
  fun _ => [18, 0, 0, 0, 0, 0]

/-- Post-move score table of the spec scenario for ReduceDeficit: the
opponent leads by exactly 5 on colour 0; candidate 10 raises that
trailing colour by 5, candidate 20 raises an unrelated colour by 10. -/
def peekScenario5 : Nat → List Int :=
  fun ms => if ms = 10 then [5, 0, 0, 0, 0, 0] else [0, 10, 0, 0, 0, 0]

/-- Squeezing then flattening is the identity on value lists. -/
theorem npvToList_npSqueeze (xs : List Flt) : npvToList (npSqueeze xs) = xs := by
  cases xs with
  | nil => rfl
  | cons x t => cases t <;> rfl

/-- The 0-d guard of the sub-batch loop restores the squeezed values. -/
theorem npvToList_ensureVec_npSqueeze (xs : List Flt) :
    npvToList (ensureVec (npSqueeze xs)) = xs := by
  cases xs with
  | nil => rfl
  | cons x t => cases t <;> rfl

/-- Folding list-append over an accumulator factors the accumulator out. -/
theorem foldl_append_acc {β : Type} (g : Nat → List β) (l : List Nat) (a : List β) :
    l.foldl (fun acc i => acc ++ g i) a = a ++ l.foldl (fun acc i => acc ++ g i) [] := by
  induction l generalizing a with
  | nil => simp
  | cons x t ih =>
    simp only [List.foldl_cons, List.nil_append]
    rw [ih (a ++ g x), ih (g x), List.append_assoc]

/-- Shifting a numpy slice by one sub-batch width. -/
theorem npSlice_shift {α : Type} (xs : List α) (mb a b : Nat) :
    npSlice xs (a + mb) (b + mb) = npSlice (xs.drop mb) a b := by
  simp only [npSlice]
  rw [Nat.add_comm a mb, ← List.drop_drop, List.drop_take]
  have hb : b + mb - mb = b := by omega
  rw [hb]

/-- Concatenating the `k` consecutive width-`mb` slices of a list of
length at most `k * mb` reassembles the list. -/
theorem foldl_chunks (mb : Nat) :
    ∀ (k : Nat) (xs : List Flt), xs.length ≤ k * mb →
      (List.range k).foldl (fun acc i => acc ++ npSlice xs (i * mb) ((i + 1) * mb)) [] = xs := by
  intro k
  induction k with
  | zero =>
    intro xs h
    simp only [Nat.zero_mul, Nat.le_zero] at h
    simp [List.length_eq_zero.mp h]
  | succ k ih =>
    intro xs h
    rw [List.range_succ_eq_map]
    simp only [List.foldl_cons, List.foldl_map, List.nil_append]
    rw [foldl_append_acc]
    have hg : (fun (acc : List Flt) (i : Nat) =>
        acc ++ npSlice xs ((i + 1) * mb) ((i + 1 + 1) * mb)) =
        fun (acc : List Flt) (i : Nat) =>
        acc ++ npSlice (xs.drop mb) (i * mb) ((i + 1) * mb) := by
      funext acc i
      have hsh : npSlice xs ((i + 1) * mb) ((i + 1 + 1) * mb) =
          npSlice (xs.drop mb) (i * mb) ((i + 1) * mb) := by
        have h1 : (i + 1) * mb = i * mb + mb := by ring
        have h2 : (i + 1 + 1) * mb = (i + 1) * mb + mb := by ring
        rw [h2, h1, npSlice_shift]
      rw [hsh]
    rw [hg, ih (xs.drop mb) (by
      have hkm : (k + 1) * mb = k * mb + mb := by ring
      simp only [List.length_drop]
      omega)]
    have h0 : npSlice xs (0 * mb) ((0 + 1) * mb) = xs.take mb := by
      simp [npSlice]
    rw [h0, List.take_append_drop]

/-- C2 (confirmed): for every batch and every configured
`max_batch ≥ 1`, with a pure per-row value estimator,
`predict_values` returns exactly the values that a single whole-batch
invocation of the estimator produces — one value per input row, in the
original row order; sub-batching never changes the output. -/
theorem predict_values_eq_whole_batch {Row : Type} (f : Row → Flt) (maxBatch : Nat)
    (rows : List Row) (hmb : 1 ≤ maxBatch) :
    npvToList (predictValues f maxBatch rows) = npvToList (runModel f rows) ∧
    npvToList (predictValues f maxBatch rows) = rows.map f := by
  have whole : npvToList (runModel f rows) = rows.map f := by
    simp [runModel, npvToList_npSqueeze]
  suffices h : npvToList (predictValues f maxBatch rows) = rows.map f by
    exact ⟨by rw [h, whole], h⟩
  by_cases h0 : rows.length / maxBatch = 0
  · simp [predictValues, h0, whole]
  · simp only [predictValues, h0, if_false]
    have hv : ∀ L : List Flt, npvToList (NpVal.vec L) = L := fun _ => rfl
    rw [hv, foldl_append_acc]
    rw [List.drop_append_of_le_length (by simp)]
    rw [show (List.drop 1 [Flt.fin 0] : List Flt) = [] from rfl, List.nil_append]
    have hrw : (fun (acc : List Flt) (i : Nat) => acc ++
        npvToList (ensureVec (runModel f (npSlice rows (i * maxBatch) ((i + 1) * maxBatch))))) =
        fun (acc : List Flt) (i : Nat) => acc ++
        npSlice (rows.map f) (i * maxBatch) ((i + 1) * maxBatch) := by
      funext acc i
      congr 1
      rw [runModel, npvToList_ensureVec_npSqueeze, npSlice, npSlice,
        List.map_drop, List.map_take]
    rw [hrw]
    apply foldl_chunks
    simp only [List.length_map]
    have hdm := Nat.div_add_mod rows.length maxBatch
    have hmod : rows.length % maxBatch < maxBatch := Nat.mod_lt _ (by omega)
    rcases Nat.eq_zero_or_pos (rows.length % maxBatch) with hr | hr
    · rw [if_neg (by omega : ¬ rows.length % maxBatch > 0)]
      have hmm : rows.length / maxBatch * maxBatch =
          maxBatch * (rows.length / maxBatch) := by ring
      omega
    · rw [if_pos hr]
      have hmm : (rows.length / maxBatch + 1) * maxBatch =
          maxBatch * (rows.length / maxBatch) + maxBatch := by ring
      omega

/-- Witness for C2 at a concrete batch of three rows and `max_batch = 2`. -/
theorem predict_values_eq_whole_batch_witness :
    1 ≤ 2 ∧
    (npvToList (predictValues id 2 [Flt.fin 1, Flt.fin 2, Flt.fin 3]) =
      npvToList (runModel id [Flt.fin 1, Flt.fin 2, Flt.fin 3]) ∧
     npvToList (predictValues id 2 [Flt.fin 1, Flt.fin 2, Flt.fin 3]) =
      [Flt.fin 1, Flt.fin 2, Flt.fin 3].map id) :=
  ⟨by decide, predict_values_eq_whole_batch id 2 [Flt.fin 1, Flt.fin 2, Flt.fin 3] (by decide)⟩

/-- C7 (corrected): with `inference=true` the exchange decision is
forced true on every call; with `inference=false` it is NOT a fair coin
flip — `np.random.randint(0, high=1)` has an exclusive upper bound, so
its sample space is the single point 0 and the `== 1` test always
fails: the function returns false on every draw. -/
theorem choose_should_exchange_behavior :
    ∀ draw : Nat, chooseShouldExchange true draw = true ∧
      chooseShouldExchange false draw = false := by
  intro d
  refine ⟨rfl, ?_⟩
  simp [chooseShouldExchange, npRandint, Nat.mod_one]

/-- Counterexample for C7 as stated: there is no random draw for which
the `inference=false` exchange decision returns true. -/
theorem choose_should_exchange_not_coin_flip :
    ¬ ∃ draw : Nat, chooseShouldExchange false draw = true := by
  rintro ⟨d, h⟩
  simp [chooseShouldExchange, npRandint, Nat.mod_one] at h

/-- C8 (corrected): the Random strategy's chosen index is
`np.random.randint(0, high=n - 1)`, i.e. `draw % (n - 1)` — a uniform
choice over the candidates 0..n-2 only.  The chosen move always lies in
the first `n - 1` candidates, and each of those is returned for some
draw; the last candidate is excluded from the sample space. -/
theorem choose_random_move_skips_last {M : Type} [Inhabited M]
    (moves : List M) (draw : Nat) (h2 : 2 ≤ moves.length) :
    chooseRandomMove moves draw = moves.getD (draw % (moves.length - 1)) default ∧
    chooseRandomMove moves draw ∈ moves.take (moves.length - 1) ∧
    (∀ i : Nat, i < moves.length - 1 → chooseRandomMove moves i = moves.getD i default) := by
  have hfirst : ∀ d : Nat, chooseRandomMove moves d =
      moves.getD (d % (moves.length - 1)) default := by
    intro d
    simp [chooseRandomMove, npRandint]
  refine ⟨hfirst draw, ?_, ?_⟩
  · have hlt : draw % (moves.length - 1) < moves.length - 1 :=
      Nat.mod_lt _ (by omega)
    have hlt2 : draw % (moves.length - 1) < moves.length := by omega
    rw [hfirst draw, List.getD_eq_getElem _ _ hlt2]
    apply List.mem_iff_getElem.mpr
    refine ⟨draw % (moves.length - 1), by simp [List.length_take]; omega, ?_⟩
    rw [List.getElem_take]
  · intro i hi
    rw [hfirst i, Nat.mod_eq_of_lt hi]

/-- Witness for the corrected C8 at the two-candidate batch `[10, 20]`. -/
theorem choose_random_move_skips_last_witness :
    2 ≤ ([10, 20] : List Nat).length ∧
    (chooseRandomMove ([10, 20] : List Nat) 0 =
      [10, 20].getD (0 % (([10, 20] : List Nat).length - 1)) default ∧
     chooseRandomMove ([10, 20] : List Nat) 0 ∈
      ([10, 20] : List Nat).take (([10, 20] : List Nat).length - 1) ∧
     (∀ i : Nat, i < ([10, 20] : List Nat).length - 1 →
       chooseRandomMove ([10, 20] : List Nat) i = [10, 20].getD i default)) :=
  ⟨by decide, choose_random_move_skips_last [10, 20] 0 (by decide)⟩

/-- Counterexample for C8 as stated: on the batch `[10, 20]` the last
candidate (20) is never returned, for any random draw. -/
theorem choose_random_move_never_last :
    ¬ ∃ draw : Nat, chooseRandomMove ([10, 20] : List Nat) draw = 20 := by
  rintro ⟨d, h⟩
  simp [chooseRandomMove, npRandint, Nat.mod_one] at h

/-- C9 (corrected): the schedule decrements are NOT floored at 0.
`np.max(margin - 1, 0)` passes 0 as the `axis` argument of a 0-d
reduction and returns `margin - 1` unchanged, so Mixed3's margin after
`n` calls is exactly `15 - n` (negative from call 17 on) and Mixed4's
margin after `n` calls is exactly `5 - n / 5` (negative from call 30
on); the margins passed to ReduceDeficit eventually become negative. -/
theorem mixed_margins_unfloored :
    ∀ n : Nat, mixed3MarginAfter n = 15 - (n : Int) ∧
      mixed4StateAfter n = (5 - ((n / 5 : Nat) : Int), 4 - n % 5) := by
  intro n
  induction n with
  | zero => exact ⟨by norm_num [mixed3MarginAfter], by norm_num [mixed4StateAfter]⟩
  | succ n ih =>
    obtain ⟨ih3, ih4⟩ := ih
    constructor
    · simp only [mixed3MarginAfter, npMaxScalarAxis, ih3]
      push_cast
      ring
    · simp only [mixed4StateAfter, npMaxScalarAxis, ih4]
      by_cases hc : 4 - n % 5 = 0
      · rw [if_pos hc]
        have hdiv : (n + 1) / 5 = n / 5 + 1 := by omega
        have hmod : (n + 1) % 5 = 0 := by omega
        rw [hdiv, hmod]
        refine Prod.ext ?_ rfl
        push_cast
        ring
      · rw [if_neg hc]
        have hdiv : (n + 1) / 5 = n / 5 := by omega
        have hmod : (n + 1) % 5 = n % 5 + 1 := by omega
        rw [hdiv, hmod]
        refine Prod.ext rfl (by omega)

/-- Counterexample for C9 as stated: after 16 calls Mixed3's margin is
−1, not `max(15 − 16, 0) = 0`; the margin used by the 17th call is
negative. -/
theorem mixed3_margin_goes_negative :
    mixed3MarginAfter 16 = -1 ∧ mixed3MarginAfter 16 < 0 ∧
      max (15 - (16 : Int)) 0 = 0 := by decide

/-- C3 (corrected): `generate_batched` on an empty candidate batch does
return (no failure) a Representation with `size = 0`, but its `empty`
flag is 0 (false), not true: `set_batched_reprs_from_scratch` clears
`empty` unconditionally.  Single-state `generate` yields `size = 1` with
`empty = 0`. -/
theorem generate_batched_size_empty {B D S M TP MS BR DR ND : Type}
    (ext : ReprExt B D S M TP MS BR DR ND) (board : B) (deck : D)
    (score otherScore : S) (turnOf : Nat) :
    ((generateBatched ext board deck score otherScore turnOf []).1.size = 0 ∧
     (generateBatched ext board deck score otherScore turnOf []).1.empty = 0 ∧
     (generateBatched ext board deck score otherScore turnOf []).2 = []) ∧
    ∀ ing ni ce se tn : Nat,
      (generateSingle ext board deck score otherScore ing ni ce se tn).size = 1 ∧
      (generateSingle ext board deck score otherScore ing ni ce se tn).empty = 0 :=
  ⟨⟨rfl, rfl, rfl⟩, fun _ _ _ _ _ => ⟨rfl, rfl⟩⟩

/-- Counterexample for C3 as stated: a size-0 candidate batch yields
`size = 0` yet the `empty` flag is NOT 1 (true) — it is cleared to 0. -/
theorem generate_batched_size0_empty_flag_cleared :
    (generateBatched extRepr () () () () 0 []).1.size = 0 ∧
    ¬ (generateBatched extRepr () () () () 0 []).1.empty = 1 := by
  exact ⟨rfl, by decide⟩

/-- C6 (code bug): in `RL3PlySearch.choose_move` the third-ply
continuation is re-encoded with `turn_of` (the original mover) but its
`mock_turn` is invoked with `get_other_player(turn_of)`, so a terminal
third-ply state is scored from the opponent's id while comparing the
mover's score vector first.  Concrete run (one candidate per ply, every
move worth 5, game over after 3 moves, mover = player 1): the branch
reaches the third ply, the game ends with the mover ahead 10–5 — the
spec-modelled winner of the final vectors `[10]` vs `[5]` is player 1,
the original mover — yet the branch value recorded un-negated is −1
instead of the +1 the claim requires. -/
theorem third_ply_terminal_value_inverted :
    (chooseMove3Ply extRun 2 0 0 0 1 1 stRun).2.2.2 = Flt.fin (-1) ∧
    (chooseMove3Ply extRun 2 0 0 0 1 1 stRun).1.scores.get? 2 = some 10 ∧
    (chooseMove3Ply extRun 2 0 0 0 1 1 stRun).1.scores.get? 3 = some 5 ∧
    findWinnerFastSpec [10] [5] = 1 ∧
    getOtherPlayerSpec 1 = 2 := by
  refine ⟨?_, ?_, ?_, rfl, rfl⟩ <;> rfl

/-- Scan lemma for `npArgmaxAux`: when the remaining list contains a
NaN, the scan stops at some NaN position (offset from the running
index `i`). -/
theorem npArgmaxAux_nan (l : List Flt) : ∀ (mp : Flt) (i best : Nat), Flt.nan ∈ l →
    ∃ j, j < l.length ∧ npArgmaxAux l mp i best = i + j ∧
      (l.getD j Flt.nan).isNan = true := by
  induction l with
  | nil => intro mp i best h; simp at h
  | cons x xs ih =>
    intro mp i best h
    by_cases hx : x.isNan
    · exact ⟨0, by simp, by simp [npArgmaxAux, hx], by simpa using hx⟩
    · have hmem : Flt.nan ∈ xs := by
        rcases List.mem_cons.mp h with h1 | h1
        · exact absurd (h1 ▸ rfl : x.isNan = true) hx
        · exact h1
      simp only [npArgmaxAux, hx, Bool.false_eq_true, if_false]
      by_cases hg : Flt.gt x mp
      · rw [if_pos hg]
        obtain ⟨j, hj, he, hn⟩ := ih x (i + 1) i hmem
        exact ⟨j + 1, by simpa using Nat.succ_lt_succ hj,
          by rw [he]; omega, by simpa using hn⟩
      · rw [if_neg hg]
        obtain ⟨j, hj, he, hn⟩ := ih mp (i + 1) best hmem
        exact ⟨j + 1, by simpa using Nat.succ_lt_succ hj,
          by rw [he]; omega, by simpa using hn⟩

/-- When the value vector contains a NaN, `np.argmax` returns an
in-range index whose value is NaN (numpy NaN propagation). -/
theorem npArgmax_nan (xs : List Flt) (h : Flt.nan ∈ xs) :
    npArgmax xs < xs.length ∧ (xs.getD (npArgmax xs) Flt.nan).isNan = true := by
  cases xs with
  | nil => simp at h
  | cons x t =>
    by_cases hx : x.isNan
    · refine ⟨by simp [npArgmax, hx], ?_⟩
      simp [npArgmax, hx]
    · have hmem : Flt.nan ∈ t := by
        rcases List.mem_cons.mp h with h1 | h1
        · exact absurd (h1 ▸ rfl : x.isNan = true) hx
        · exact h1
      obtain ⟨j, hj, he, hn⟩ := npArgmaxAux_nan t x 1 0 hmem
      have hnp : npArgmax (x :: t) = 1 + j := by
        simp [npArgmax, hx, he]
      refine ⟨?_, ?_⟩
      · rw [hnp]
        simp only [List.length_cons]
        omega
      · rw [hnp]
        have hg : (x :: t).getD (1 + j) Flt.nan = t.getD j Flt.nan := by
          rw [Nat.add_comm]
          exact List.getD_cons_succ
        rw [hg]
        exact hn

/-- C10 (corrected): the RL strategies do NOT disqualify non-finite
predictions.  `np.argmax` treats NaN as maximal, so whenever the
predicted-value vector contains a NaN — even alongside finite values —
`RLVanilla.choose_move`'s selected row is a NaN row: the value it
reports for the chosen candidate is NaN. -/
theorem rl_argmax_selects_nan {B S D M MC DB MS TP V RT Row : Type} [Inhabited M]
    (ext : SearchExt B S D M MC DB MS TP V RT Row) (board : B) (deck : D)
    (score otherScore : S) (turnOf : Nat)
    (hnan : Flt.nan ∈ vanillaValues ext board deck score otherScore turnOf) :
    ((chooseMoveVanilla ext board deck score otherScore turnOf).2.2).isNan = true :=
  (npArgmax_nan _ hnan).2

/-- Witness for the corrected C10 on the concrete two-row batch with
predictions `[0, NaN]`. -/
theorem rl_argmax_selects_nan_witness :
    Flt.nan ∈ vanillaValues extNan 0 0 0 0 1 ∧
    ((chooseMoveVanilla extNan 0 0 0 0 1).2.2).isNan = true :=
  ⟨by decide, rl_argmax_selects_nan extNan 0 0 0 0 1 (by decide)⟩

/-- Counterexample for C10 as stated: with predicted values `[0, NaN]`
(a finite value is present) the vanilla RL strategy still selects the
candidate whose predicted value is NaN — non-finite predictions are not
disqualified from the argmax. -/
theorem rl_selects_nonfinite_candidate :
    Flt.fin 0 ∈ vanillaValues extNan 0 0 0 0 1 ∧
    (chooseMoveVanilla extNan 0 0 0 0 1).2.2 = Flt.nan ∧
    ((chooseMoveVanilla extNan 0 0 0 0 1).2.2).isFinite = false := by
  decide

/-- Index read of an in-range position is a member of the list. -/
theorem getD_mem_of_lt {α : Type} (l : List α) (d : α) (j : Nat) (h : j < l.length) :
    l.getD j d ∈ l := by
  rw [List.getD_eq_getElem _ _ h]
  exact List.getElem_mem h

/-- Index read through `map` at an in-range position. -/
theorem getD_map_of_lt {α β : Type} (f : α → β) (l : List α) (d : β) (d' : α)
    (j : Nat) (h : j < l.length) :
    (l.map f).getD j d = f (l.getD j d') := by
  rw [List.getD_eq_getElem _ _ (by simpa using h), List.getD_eq_getElem _ _ h,
    List.getElem_map]

/-- Scan lemma for `argmaxIntAux`: the result is either the carried
`best` index (when no later element beats the running maximum `mp`) or
an absolute position `i + j` holding a maximum of the remaining list
that is at least `mp`. -/
theorem argmaxIntAux_spec (l : List Int) : ∀ (mp : Int) (i best : Nat),
    (argmaxIntAux l mp i best = best ∧ ∀ j, j < l.length → l.getD j 0 ≤ mp) ∨
    (∃ j, j < l.length ∧ argmaxIntAux l mp i best = i + j ∧ mp ≤ l.getD j 0 ∧
      ∀ j', j' < l.length → l.getD j' 0 ≤ l.getD j 0) := by
  induction l with
  | nil =>
    intro mp i best
    left
    exact ⟨rfl, fun j hj => absurd hj (by simp)⟩
  | cons x xs ih =>
    intro mp i best
    by_cases hx : mp < x
    · right
      have hr : argmaxIntAux (x :: xs) mp i best = argmaxIntAux xs x (i + 1) i := by
        simp [argmaxIntAux, hx]
      rcases ih x (i + 1) i with ⟨h1, h2⟩ | ⟨j, hj, he, hle, hmax⟩
      · refine ⟨0, by simp, by rw [hr, h1]; omega, le_of_lt hx, ?_⟩
        intro j' hj'
        cases j' with
        | zero => simp
        | succ k =>
          simp only [List.getD_cons_succ, List.getD_cons_zero]
          exact h2 k (by simpa using hj')
      · refine ⟨j + 1, by simpa using hj, by rw [hr, he]; omega, ?_, ?_⟩
        · simp only [List.getD_cons_succ]
          exact le_of_lt (lt_of_lt_of_le hx hle)
        · intro j' hj'
          cases j' with
          | zero =>
            simp only [List.getD_cons_succ, List.getD_cons_zero]
            exact hle
          | succ k =>
            simp only [List.getD_cons_succ]
            exact hmax k (by simpa using hj')
    · have hr : argmaxIntAux (x :: xs) mp i best = argmaxIntAux xs mp (i + 1) best := by
        simp [argmaxIntAux, hx]
      rcases ih mp (i + 1) best with ⟨h1, h2⟩ | ⟨j, hj, he, hle, hmax⟩
      · left
        refine ⟨by rw [hr, h1], ?_⟩
        intro j hj'
        cases j with
        | zero =>
          simp only [List.getD_cons_zero]
          omega
        | succ k =>
          simp only [List.getD_cons_succ]
          exact h2 k (by simpa using hj')
      · right
        refine ⟨j + 1, by simpa using hj, by rw [hr, he]; omega, ?_, ?_⟩
        · simp only [List.getD_cons_succ]
          exact hle
        · intro j' hj'
          cases j' with
          | zero =>
            simp only [List.getD_cons_succ, List.getD_cons_zero]
            exact le_trans (by omega) hle
          | succ k =>
            simp only [List.getD_cons_succ]
            exact hmax k (by simpa using hj')

/-- On a non-empty integer vector, `argmaxInt` is an in-range index of a
maximal element. -/
theorem argmaxInt_spec (xs : List Int) (h : xs ≠ []) :
    argmaxInt xs < xs.length ∧
    ∀ j, j < xs.length → xs.getD j 0 ≤ xs.getD (argmaxInt xs) 0 := by
  cases xs with
  | nil => exact absurd rfl h
  | cons x t =>
    have heq : argmaxInt (x :: t) = argmaxIntAux t x 1 0 := rfl
    rcases argmaxIntAux_spec t x 1 0 with ⟨h1, h2⟩ | ⟨j, hj, he, hle, hmax⟩
    · rw [heq, h1]
      refine ⟨by simp, ?_⟩
      intro j hj'
      cases j with
      | zero => simp
      | succ k =>
        simp only [List.getD_cons_succ, List.getD_cons_zero]
        exact h2 k (by simpa using hj')
    · rw [heq, he]
      have hg : (x :: t).getD (1 + j) 0 = t.getD j 0 := by
        rw [Nat.add_comm]
        exact List.getD_cons_succ
      refine ⟨by simp only [List.length_cons]; omega, ?_⟩
      intro j' hj'
      rw [hg]
      cases j' with
      | zero =>
        simp only [List.getD_cons_zero]
        exact hle
      | succ k =>
        simp only [List.getD_cons_succ]
        exact hmax k (by simpa using hj')

/-- The fold of `max` bounds its seed and every list element. -/
theorem foldl_max_le (xs : List Int) : ∀ a : Int,
    a ≤ xs.foldl max a ∧ ∀ y ∈ xs, y ≤ xs.foldl max a := by
  induction xs with
  | nil => intro a; exact ⟨le_refl a, by simp⟩
  | cons x t ih =>
    intro a
    obtain ⟨h1, h2⟩ := ih (max a x)
    refine ⟨le_trans (le_max_left a x) h1, ?_⟩
    intro y hy
    rcases List.mem_cons.mp hy with rfl | hy'
    · exact le_trans (le_max_right a y) h1
    · exact h2 y hy'

/-- The fold of `max` is the seed or a list element. -/
theorem foldl_max_mem (xs : List Int) : ∀ a : Int,
    xs.foldl max a = a ∨ xs.foldl max a ∈ xs := by
  induction xs with
  | nil => intro a; left; rfl
  | cons x t ih =>
    intro a
    rcases ih (max a x) with h | h
    · rcases le_total a x with hax | hax
      · right
        rw [List.foldl_cons, h, max_eq_right hax]
        exact List.mem_cons_self x t
      · left
        rw [List.foldl_cons, h, max_eq_left hax]
    · right
      exact List.mem_cons_of_mem x h

/-- On a non-empty integer vector, `npMaxInt` is an attained upper bound. -/
theorem npMaxInt_spec (xs : List Int) (h : xs ≠ []) :
    npMaxInt xs ∈ xs ∧ ∀ y ∈ xs, y ≤ npMaxInt xs := by
  cases xs with
  | nil => exact absurd rfl h
  | cons x t =>
    constructor
    · rcases foldl_max_mem t x with h1 | h1
      · rw [npMaxInt, h1]
        exact List.mem_cons_self x t
      · exact List.mem_cons_of_mem x h1
    · intro y hy
      rcases List.mem_cons.mp hy with rfl | hy'
      · exact (foldl_max_le t y).1
      · exact (foldl_max_le t x).2 y hy'

/-- The fold of `min` bounds its seed and every list element from below. -/
theorem foldl_min_le (xs : List Int) : ∀ a : Int,
    xs.foldl min a ≤ a ∧ ∀ y ∈ xs, xs.foldl min a ≤ y := by
  induction xs with
  | nil => intro a; exact ⟨le_refl a, by simp⟩
  | cons x t ih =>
    intro a
    obtain ⟨h1, h2⟩ := ih (min a x)
    refine ⟨le_trans h1 (min_le_left a x), ?_⟩
    intro y hy
    rcases List.mem_cons.mp hy with rfl | hy'
    · exact le_trans h1 (min_le_right a y)
    · exact h2 y hy'

/-- The fold of `min` is the seed or a list element. -/
theorem foldl_min_mem (xs : List Int) : ∀ a : Int,
    xs.foldl min a = a ∨ xs.foldl min a ∈ xs := by
  induction xs with
  | nil => intro a; left; rfl
  | cons x t ih =>
    intro a
    rcases ih (min a x) with h | h
    · rcases le_total a x with hax | hax
      · left
        rw [List.foldl_cons, h, min_eq_left hax]
      · right
        rw [List.foldl_cons, h, min_eq_right hax]
        exact List.mem_cons_self x t
    · right
      exact List.mem_cons_of_mem x h

/-- On a non-empty integer vector, `npMinInt` is an attained lower bound. -/
theorem npMinInt_spec (xs : List Int) (h : xs ≠ []) :
    npMinInt xs ∈ xs ∧ ∀ y ∈ xs, npMinInt xs ≤ y := by
  cases xs with
  | nil => exact absurd rfl h
  | cons x t =>
    constructor
    · rcases foldl_min_mem t x with h1 | h1
      · rw [npMinInt, h1]
        exact List.mem_cons_self x t
      · exact List.mem_cons_of_mem x h1
    · intro y hy
      rcases List.mem_cons.mp hy with rfl | hy'
      · exact (foldl_min_le t y).1
      · exact (foldl_min_le t x).2 y hy'

/-- Membership in the index vector returned by `np.where`. -/
theorem mem_npWhere {α : Type} (xs : List α) (p : α → Bool) (i : Nat) :
    i ∈ npWhere xs p ↔ ∃ a, xs[i]? = some a ∧ p a = true := by
  simp only [npWhere, List.mem_map, List.mem_filter]
  constructor
  · rintro ⟨⟨idx, a⟩, ⟨hmem, hp⟩, hi⟩
    simp only at hi hp
    subst hi
    exact ⟨a, by simpa using List.mk_mem_enum_iff_getElem?.mp hmem, hp⟩
  · rintro ⟨a, hget, hp⟩
    exact ⟨(i, a), ⟨List.mk_mem_enum_iff_getElem?.mpr (by simpa using hget), hp⟩, rfl⟩

/-- Membership in an equality-test `np.where`, phrased through `getD`. -/
theorem mem_npWhere_eq (T : List Int) (target : Int) (i : Nat) :
    i ∈ npWhere T (fun v => v == target) ↔ i < T.length ∧ T.getD i 0 = target := by
  rw [mem_npWhere]
  constructor
  · rintro ⟨a, hget, hp⟩
    have hlt : i < T.length := by
      by_contra hge
      rw [List.getElem?_eq_none (by omega)] at hget
      exact Option.noConfusion hget
    have ha : T[i] = a := by
      rw [List.getElem?_eq_getElem hlt] at hget
      exact Option.some.inj hget
    refine ⟨hlt, ?_⟩
    rw [List.getD_eq_getElem _ _ hlt, ha]
    exact beq_iff_eq.mp hp
  · rintro ⟨hlt, heq⟩
    refine ⟨T.getD i 0, ?_, by rw [heq]; exact beq_self_eq_true target⟩
    rw [List.getElem?_eq_getElem hlt, List.getD_eq_getElem _ _ hlt]

/-- Common selection shape of the IncreaseMin / ReduceDeficit
tie-breaks: restrict to the `np.where` index set of candidates whose
objective `T` equals `target`, and inside it take the single element or
the argmax of the gains `G`.  The selected index is in range, attains
the target objective, and maximizes `G` among all indices attaining it. -/
theorem selectIdx_spec (T G : List Int) (target : Int) (htgt : target ∈ T) :
    ∃ k,
      (if (npWhere T (fun v => v == target)).length = 1
        then (npWhere T (fun v => v == target)).getD 0 0
        else (npWhere T (fun v => v == target)).getD
          (argmaxInt ((npWhere T (fun v => v == target)).map fun i => G.getD i 0)) 0) = k ∧
      k < T.length ∧ T.getD k 0 = target ∧
      ∀ j, j < T.length → T.getD j 0 = target → G.getD j 0 ≤ G.getD k 0 := by
  have hWne : npWhere T (fun v => v == target) ≠ [] := by
    obtain ⟨n, hn, hval⟩ := List.mem_iff_getElem.mp htgt
    have hnW : n ∈ npWhere T (fun v => v == target) :=
      (mem_npWhere_eq T target n).mpr ⟨hn, by rw [List.getD_eq_getElem _ _ hn, hval]⟩
    exact List.ne_nil_of_mem hnW
  by_cases h1 : (npWhere T (fun v => v == target)).length = 1
  · obtain ⟨w, hw⟩ := List.length_eq_one.mp h1
    have hwmem : w ∈ npWhere T (fun v => v == target) := by
      rw [hw]
      exact List.mem_singleton_self w
    obtain ⟨hwlt, hwval⟩ := (mem_npWhere_eq T target w).mp hwmem
    refine ⟨w, by rw [if_pos h1, hw]; rfl, hwlt, hwval, ?_⟩
    intro j hj hjt
    have hjW : j ∈ npWhere T (fun v => v == target) :=
      (mem_npWhere_eq T target j).mpr ⟨hj, hjt⟩
    rw [hw, List.mem_singleton] at hjW
    rw [hjW]
  · have hSne : (npWhere T (fun v => v == target)).map (fun i => G.getD i 0) ≠ [] :=
      fun h0 => hWne (List.map_eq_nil_iff.mp h0)
    obtain ⟨hkk, hkkmax⟩ :=
      argmaxInt_spec ((npWhere T (fun v => v == target)).map fun i => G.getD i 0) hSne
    rw [List.length_map] at hkk
    have hkmem := getD_mem_of_lt (npWhere T (fun v => v == target)) 0 _ hkk
    obtain ⟨hklt, hkval⟩ := (mem_npWhere_eq T target _).mp hkmem
    refine ⟨_, by rw [if_neg h1], hklt, hkval, ?_⟩
    intro j hj hjt
    have hjW : j ∈ npWhere T (fun v => v == target) :=
      (mem_npWhere_eq T target j).mpr ⟨hj, hjt⟩
    obtain ⟨pos, hpos, hposval⟩ := List.mem_iff_getElem.mp hjW
    have hSpos : ((npWhere T (fun v => v == target)).map fun i => G.getD i 0).getD pos 0 =
        G.getD j 0 := by
      rw [getD_map_of_lt _ _ _ 0 pos hpos, List.getD_eq_getElem _ _ hpos, hposval]
    have hSkk : ((npWhere T (fun v => v == target)).map fun i => G.getD i 0).getD
        (argmaxInt ((npWhere T (fun v => v == target)).map fun i => G.getD i 0)) 0 =
        G.getD ((npWhere T (fun v => v == target)).getD
          (argmaxInt ((npWhere T (fun v => v == target)).map fun i => G.getD i 0)) 0) 0 := by
      rw [getD_map_of_lt _ _ _ 0 _ hkk]
    have hcmp := hkkmax pos (by rw [List.length_map]; exact hpos)
    rw [hSpos, hSkk] at hcmp
    exact hcmp

/-- C4 (confirmed): on a non-empty candidate batch, IncreaseMin falls
back to exactly Max's choice when the best attainable aggregate of
post-move scores over the pre-move minimum colour indices is ≤ 0, and
otherwise returns a candidate attaining the maximal aggregate while
maximizing total score gain among the candidates attaining it; in the
spec scenario — mover score `[18,0,0,0,0,0]`, candidates affecting only
the capped colour — the chosen move equals Max's choice. -/
theorem increase_min_spec :
    (∀ (M MS : Type) [Inhabited M] (moves : List M) (originalScore : List Int)
      (msFn : M → MS) (peek : MS → List Int), moves ≠ [] →
      (npMaxInt (totalMinScoresOf (minIdxsOf originalScore) moves msFn peek) ≤ 0 →
        chooseIncreaseMinMove moves originalScore msFn peek =
          chooseMaxScoringMove moves originalScore msFn peek) ∧
      (0 < npMaxInt (totalMinScoresOf (minIdxsOf originalScore) moves msFn peek) →
        ∃ k, k < moves.length ∧
          chooseIncreaseMinMove moves originalScore msFn peek = moves.getD k default ∧
          (totalMinScoresOf (minIdxsOf originalScore) moves msFn peek).getD k 0 =
            npMaxInt (totalMinScoresOf (minIdxsOf originalScore) moves msFn peek) ∧
          (∀ j, j < moves.length →
            (totalMinScoresOf (minIdxsOf originalScore) moves msFn peek).getD j 0 ≤
              (totalMinScoresOf (minIdxsOf originalScore) moves msFn peek).getD k 0) ∧
          (∀ j, j < moves.length →
            (totalMinScoresOf (minIdxsOf originalScore) moves msFn peek).getD j 0 =
              (totalMinScoresOf (minIdxsOf originalScore) moves msFn peek).getD k 0 →
            (totalGainsOf originalScore moves msFn peek).getD j 0 ≤
              (totalGainsOf originalScore moves msFn peek).getD k 0))) ∧
    chooseIncreaseMinMove ([10, 20] : List Nat) [18, 0, 0, 0, 0, 0] id peekScenario4 =
      chooseMaxScoringMove ([10, 20] : List Nat) [18, 0, 0, 0, 0, 0] id peekScenario4 := by
  constructor
  · intro M MS _ moves originalScore msFn peek hne
    set T := totalMinScoresOf (minIdxsOf originalScore) moves msFn peek with hTdef
    set G := totalGainsOf originalScore moves msFn peek with hGdef
    have hTlen : T.length = moves.length := by
      rw [hTdef]
      simp [totalMinScoresOf, updatedScoresOf]
    have hTne : T ≠ [] := by
      intro h0
      rw [h0] at hTlen
      simp only [List.length_nil] at hTlen
      exact hne (List.length_eq_zero.mp hTlen.symm)
    constructor
    · intro hle
      simp only [chooseIncreaseMinMove]
      rw [← hTdef, if_neg (not_lt.mpr hle)]
    · intro hpos
      have hAmem : npMaxInt T ∈ T := (npMaxInt_spec T hTne).1
      obtain ⟨k, hkeq, hklt, hkval, hktie⟩ := selectIdx_spec T G (npMaxInt T) hAmem
      refine ⟨k, by rw [← hTlen]; exact hklt, ?_, hkval, ?_, ?_⟩
      · simp only [chooseIncreaseMinMove]
        rw [← hTdef, if_pos hpos]
        by_cases h1 : (npWhere T (fun v => v == npMaxInt T)).length = 1
        · rw [if_pos h1]
          rw [if_pos h1] at hkeq
          rw [hkeq]
        · rw [if_neg h1]
          rw [if_neg h1] at hkeq
          have hmapeq : (npWhere T (fun v => v == npMaxInt T)).map
              (fun i => totalGain originalScore ((updatedScoresOf moves msFn peek).getD i [])) =
              (npWhere T (fun v => v == npMaxInt T)).map (fun i => G.getD i 0) := by
            apply List.map_congr_left
            intro i hi
            obtain ⟨hilt, _⟩ := (mem_npWhere_eq _ _ i).mp hi
            have hulen : i < (updatedScoresOf moves msFn peek).length := by
              rw [hTdef] at hilt
              simpa [totalMinScoresOf] using hilt
            rw [hGdef]
            simp only [totalGainsOf]
            exact (getD_map_of_lt _ _ 0 [] i hulen).symm
          rw [hmapeq]
          have hWne : npWhere T (fun v => v == npMaxInt T) ≠ [] := by
            obtain ⟨n, hn, hval⟩ := List.mem_iff_getElem.mp hAmem
            exact List.ne_nil_of_mem ((mem_npWhere_eq T (npMaxInt T) n).mpr
              ⟨hn, by rw [List.getD_eq_getElem _ _ hn, hval]⟩)
          have hkk := (argmaxInt_spec ((npWhere T (fun v => v == npMaxInt T)).map
            fun i => G.getD i 0) (fun h0 => hWne (List.map_eq_nil_iff.mp h0))).1
          rw [List.length_map] at hkk
          rw [getD_map_of_lt (fun i => moves.getD i default) _ default 0 _ hkk]
          rw [hkeq]
      · intro j hj
        rw [hkval]
        exact (npMaxInt_spec T hTne).2 _ (getD_mem_of_lt T 0 j (by rw [hTlen]; exact hj))
      · intro j hj hjeq
        exact hktie j (by rw [hTlen]; exact hj) (by rw [hjeq, hkval])
  · decide

/-- Witness for C4: the spec scenario instantiated — mover score
`[18,0,0,0,0,0]`, two candidates that cannot improve the minimum-score
colours (aggregate 0 ≤ 0), so IncreaseMin returns Max's choice. -/
theorem increase_min_spec_witness :
    ([10, 20] : List Nat) ≠ [] ∧
    npMaxInt (totalMinScoresOf (minIdxsOf [18, 0, 0, 0, 0, 0]) [10, 20] id peekScenario4) ≤ 0 ∧
    chooseIncreaseMinMove ([10, 20] : List Nat) [18, 0, 0, 0, 0, 0] id peekScenario4 =
      chooseMaxScoringMove ([10, 20] : List Nat) [18, 0, 0, 0, 0, 0] id peekScenario4 :=
  ⟨by decide, by decide,
    (increase_min_spec.1 Nat Nat [10, 20] [18, 0, 0, 0, 0, 0] id peekScenario4
      (by decide)).1 (by decide)⟩

/-- C5 (confirmed): on a non-empty candidate batch with margin ≥ 0,
ReduceDeficit assigns each candidate the summed per-colour deficit
`clamp(opponent − post + 36 + margin, 36) − 36`, chooses a candidate
minimizing that sum, and among minimizers maximizes total score gain;
in the spec scenario (margin 0, opponent ahead by exactly 5 on one
colour) the candidate erasing the 5-point deficit beats the candidate
gaining 10 on an unrelated colour. -/
theorem reduce_deficit_spec :
    (∀ (M MS : Type) [Inhabited M] (moves : List M) (originalScore otherScore : List Int)
      (margin : Int) (msFn : M → MS) (peek : MS → List Int),
      moves ≠ [] → 0 ≤ margin →
      ∃ k, k < moves.length ∧
        chooseReduceDeficitMove moves originalScore otherScore margin msFn peek =
          moves.getD k default ∧
        (∀ j, j < moves.length →
          (deficitTotalsOf otherScore margin moves msFn peek).getD k 0 ≤
            (deficitTotalsOf otherScore margin moves msFn peek).getD j 0) ∧
        (∀ j, j < moves.length →
          (deficitTotalsOf otherScore margin moves msFn peek).getD j 0 =
            (deficitTotalsOf otherScore margin moves msFn peek).getD k 0 →
          (totalGainsOf originalScore moves msFn peek).getD j 0 ≤
            (totalGainsOf originalScore moves msFn peek).getD k 0)) ∧
    chooseReduceDeficitMove ([10, 20] : List Nat) [0, 0, 0, 0, 0, 0] [5, 0, 0, 0, 0, 0]
      0 id peekScenario5 = 10 := by
  constructor
  · intro M MS _ moves originalScore otherScore margin msFn peek hne _hm
    set T := deficitTotalsOf otherScore margin moves msFn peek with hTdef
    set G := totalGainsOf originalScore moves msFn peek with hGdef
    have hTlen : T.length = moves.length := by
      rw [hTdef]
      simp [deficitTotalsOf, updatedScoresOf]
    have hTne : T ≠ [] := by
      intro h0
      rw [h0] at hTlen
      simp only [List.length_nil] at hTlen
      exact hne (List.length_eq_zero.mp hTlen.symm)
    have hAmem : npMinInt T ∈ T := (npMinInt_spec T hTne).1
    obtain ⟨k, hkeq, hklt, hkval, hktie⟩ := selectIdx_spec T G (npMinInt T) hAmem
    refine ⟨k, by rw [← hTlen]; exact hklt, ?_, ?_, ?_⟩
    · simp only [chooseReduceDeficitMove]
      rw [← hTdef]
      have hGunf : (updatedScoresOf moves msFn peek).map (totalGain originalScore) = G := by
        rw [hGdef]
        rfl
      rw [hGunf]
      by_cases h1 : (npWhere T (fun v => v == npMinInt T)).length = 1
      · rw [if_pos h1]
        rw [if_pos h1] at hkeq
        rw [hkeq]
      · rw [if_neg h1]
        rw [if_neg h1] at hkeq
        rw [hkeq]
    · intro j hj
      rw [hkval]
      exact (npMinInt_spec T hTne).2 _ (getD_mem_of_lt T 0 j (by rw [hTlen]; exact hj))
    · intro j hj hjeq
      exact hktie j (by rw [hTlen]; exact hj) (by rw [hjeq, hkval])
  · decide

/-- Witness for C5 at the spec scenario: margin 0, the opponent ahead by
5 on colour 0, candidate 10 erasing that deficit, candidate 20 gaining
10 on an unrelated colour. -/
theorem reduce_deficit_spec_witness :
    ([10, 20] : List Nat) ≠ [] ∧ (0 : Int) ≤ 0 ∧
    ∃ k, k < ([10, 20] : List Nat).length ∧
      chooseReduceDeficitMove ([10, 20] : List Nat) [0, 0, 0, 0, 0, 0] [5, 0, 0, 0, 0, 0]
        0 id peekScenario5 = [10, 20].getD k default ∧
      (∀ j, j < ([10, 20] : List Nat).length →
        (deficitTotalsOf [5, 0, 0, 0, 0, 0] 0 [10, 20] id peekScenario5).getD k 0 ≤
          (deficitTotalsOf [5, 0, 0, 0, 0, 0] 0 [10, 20] id peekScenario5).getD j 0) ∧
      (∀ j, j < ([10, 20] : List Nat).length →
        (deficitTotalsOf [5, 0, 0, 0, 0, 0] 0 [10, 20] id peekScenario5).getD j 0 =
          (deficitTotalsOf [5, 0, 0, 0, 0, 0] 0 [10, 20] id peekScenario5).getD k 0 →
        (totalGainsOf [0, 0, 0, 0, 0, 0] [10, 20] id peekScenario5).getD j 0 ≤
          (totalGainsOf [0, 0, 0, 0, 0, 0] [10, 20] id peekScenario5).getD k 0) :=
  ⟨by decide, by decide,
    reduce_deficit_spec.1 Nat Nat [10, 20] [0, 0, 0, 0, 0, 0] [5, 0, 0, 0, 0, 0]
      0 id peekScenario5 (by decide) (by decide)⟩

section SearchFrame

variable {B S D M MC DB MS TP V RT Row : Type}

/-- Reading an index below the length of the left part of an append. -/
theorem getElem?_append_lt {α : Type} (l₁ l₂ : List α) (i : Nat) (h : i < l₁.length) :
    (l₁ ++ l₂)[i]? = l₁[i]? := by
  rw [List.getElem?_append, if_pos h]

/-- Every store preserves itself. -/
theorem storePreserves_refl (st : Store B S D) : StorePreserves st st :=
  ⟨le_refl _, le_refl _, le_refl _, fun _ _ => rfl, fun _ _ => rfl, fun _ _ => rfl⟩

/-- Preservation composes. -/
theorem storePreserves_trans {st0 st1 st2 : Store B S D}
    (h01 : StorePreserves st0 st1) (h12 : StorePreserves st1 st2) :
    StorePreserves st0 st2 :=
  ⟨le_trans h01.boardsLen h12.boardsLen, le_trans h01.scoresLen h12.scoresLen,
   le_trans h01.decksLen h12.decksLen,
   fun i hi => (h12.boardsEq i (lt_of_lt_of_le hi h01.boardsLen)).trans (h01.boardsEq i hi),
   fun i hi => (h12.scoresEq i (lt_of_lt_of_le hi h01.scoresLen)).trans (h01.scoresEq i hi),
   fun i hi => (h12.decksEq i (lt_of_lt_of_le hi h01.decksLen)).trans (h01.decksEq i hi)⟩

/-- Writing a board cell outside the original store's range preserves
the originals. -/
theorem storePreserves_setBoard {st0 st : Store B S D} (h : StorePreserves st0 st)
    (j : Nat) (hj : st0.boards.length ≤ j) (b : B) :
    StorePreserves st0 (st.setBoard j b) :=
  ⟨by simpa [Store.setBoard] using h.boardsLen, h.scoresLen, h.decksLen,
   fun i hi => by
     simp only [Store.setBoard]
     rw [List.getElem?_set_ne (by omega)]
     exact h.boardsEq i hi,
   h.scoresEq, h.decksEq⟩

/-- Writing a score cell outside the original store's range preserves
the originals. -/
theorem storePreserves_setScore {st0 st : Store B S D} (h : StorePreserves st0 st)
    (j : Nat) (hj : st0.scores.length ≤ j) (s : S) :
    StorePreserves st0 (st.setScore j s) :=
  ⟨h.boardsLen, by simpa [Store.setScore] using h.scoresLen, h.decksLen,
   h.boardsEq,
   fun i hi => by
     simp only [Store.setScore]
     rw [List.getElem?_set_ne (by omega)]
     exact h.scoresEq i hi,
   h.decksEq⟩

/-- Writing a deck cell outside the original store's range preserves
the originals. -/
theorem storePreserves_setDeck {st0 st : Store B S D} (h : StorePreserves st0 st)
    (j : Nat) (hj : st0.decks.length ≤ j) (d : D) :
    StorePreserves st0 (st.setDeck j d) :=
  ⟨h.boardsLen, h.scoresLen, by simpa [Store.setDeck] using h.decksLen,
   h.boardsEq, h.scoresEq,
   fun i hi => by
     simp only [Store.setDeck]
     rw [List.getElem?_set_ne (by omega)]
     exact h.decksEq i hi⟩

/-- Allocating a fresh board cell preserves the originals. -/
theorem storePreserves_allocBoard {st0 st : Store B S D} (h : StorePreserves st0 st)
    (b : B) : StorePreserves st0 (st.allocBoard b).1 := by
  refine ⟨?_, h.scoresLen, h.decksLen, ?_, h.scoresEq, h.decksEq⟩
  · simp only [Store.allocBoard, List.length_append, List.length_cons, List.length_nil]
    have := h.boardsLen
    omega
  · intro i hi
    simp only [Store.allocBoard]
    rw [getElem?_append_lt _ _ i (lt_of_lt_of_le hi h.boardsLen)]
    exact h.boardsEq i hi

/-- Allocating a fresh score cell preserves the originals. -/
theorem storePreserves_allocScore {st0 st : Store B S D} (h : StorePreserves st0 st)
    (s : S) : StorePreserves st0 (st.allocScore s).1 := by
  refine ⟨h.boardsLen, ?_, h.decksLen, h.boardsEq, ?_, h.decksEq⟩
  · simp only [Store.allocScore, List.length_append, List.length_cons, List.length_nil]
    have := h.scoresLen
    omega
  · intro i hi
    simp only [Store.allocScore]
    rw [getElem?_append_lt _ _ i (lt_of_lt_of_le hi h.scoresLen)]
    exact h.scoresEq i hi

/-- Allocating a fresh deck cell preserves the originals. -/
theorem storePreserves_allocDeck {st0 st : Store B S D} (h : StorePreserves st0 st)
    (d : D) : StorePreserves st0 (st.allocDeck d).1 := by
  refine ⟨h.boardsLen, h.scoresLen, ?_, h.boardsEq, h.scoresEq, ?_⟩
  · simp only [Store.allocDeck, List.length_append, List.length_cons, List.length_nil]
    have := h.decksLen
    omega
  · intro i hi
    simp only [Store.allocDeck]
    rw [getElem?_append_lt _ _ i (lt_of_lt_of_le hi h.decksLen)]
    exact h.decksEq i hi

/-- Frame lemma for `mock_move`: it writes only the three cells it is
given, so when those lie outside the original store's range the
originals are preserved. -/
theorem storePreserves_mockMove [Inhabited B] [Inhabited S] [Inhabited D]
    (ext : SearchExt B S D M MC DB MS TP V RT Row) (move : M)
    {st0 st : Store B S D} (h : StorePreserves st0 st) (rb rs rd : Nat)
    (hrb : st0.boards.length ≤ rb) (hrs : st0.scores.length ≤ rs)
    (hrd : st0.decks.length ≤ rd) :
    StorePreserves st0 (mockMove ext move rb rs rd st).1 := by
  simp only [mockMove]
  exact storePreserves_setDeck
    (storePreserves_setBoard (storePreserves_setScore h rs hrs _) rb hrb _) rd hrd _

/-- Frame lemma for `mock_turn` at every fuel: it writes only through
the cells `rb`, `rs`, `rd` it is handed. -/
theorem storePreserves_mockTurn [Inhabited B] [Inhabited S] [Inhabited D] [Inhabited M]
    (ext : SearchExt B S D M MC DB MS TP V RT Row) :
    ∀ (fuel : Nat) (move : M) (mv : Flt) (rb rs ros rd turnOf : Nat)
      {st0 st : Store B S D}, StorePreserves st0 st →
      st0.boards.length ≤ rb → st0.scores.length ≤ rs → st0.decks.length ≤ rd →
      StorePreserves st0 (mockTurn ext fuel move mv rb rs ros rd turnOf st).1 := by
  intro fuel
  induction fuel with
  | zero =>
    intro move mv rb rs ros rd turnOf st0 st h _ _ _
    simpa [mockTurn] using h
  | succ fuel ih =>
    intro move mv rb rs ros rd turnOf st0 st h hrb hrs hrd
    have h1 : StorePreserves st0 (mockMove ext move rb rs rd st).1 :=
      storePreserves_mockMove ext move h rb rs rd hrb hrs hrd
    simp only [mockTurn]
    split
    · exact h1
    · split
      · exact h1
      · exact ih _ _ rb rs ros rd turnOf h1 hrb hrs hrd

/-- Frame lemma for a 2-ply search branch: all mutation happens on the
four cells freshly allocated by `get_copy` (and on the dummy decks),
never on cells of the original store. -/
theorem storePreserves_branchStep2 [Inhabited B] [Inhabited S] [Inhabited D] [Inhabited M]
    (ext : SearchExt B S D M MC DB MS TP V RT Row)
    (fuel rbO rdO rsO rosO turnOf : Nat) (movesO : List M) (valsO : List Flt)
    (topK : List Nat) {st0 : Store B S D} (acc : Store B S D × List Flt) (i : Nat)
    (h : StorePreserves st0 acc.1) :
    StorePreserves st0
      (branchStep2 ext fuel rbO rdO rsO rosO turnOf movesO valsO topK acc i).1 := by
  simp only [branchStep2]
  set a1 := acc.1.allocBoard (acc.1.getBoard rbO) with ha1
  set a2 := a1.1.allocScore (a1.1.getScore rsO) with ha2
  set a3 := a2.1.allocScore (a2.1.getScore rosO) with ha3
  set a4 := a3.1.allocDeck (a3.1.getDeck rdO) with ha4
  have h1 : StorePreserves st0 a1.1 := by
    rw [ha1]; exact storePreserves_allocBoard h _
  have h2 : StorePreserves st0 a2.1 := by
    rw [ha2]; exact storePreserves_allocScore h1 _
  have h3 : StorePreserves st0 a3.1 := by
    rw [ha3]; exact storePreserves_allocScore h2 _
  have h4 : StorePreserves st0 a4.1 := by
    rw [ha4]; exact storePreserves_allocDeck h3 _
  have hrb : st0.boards.length ≤ a1.2 := by
    rw [ha1]; exact h.boardsLen
  have hrs : st0.scores.length ≤ a2.2 := by
    rw [ha2]; exact h1.scoresLen
  have hros : st0.scores.length ≤ a3.2 := by
    rw [ha3]; exact h2.scoresLen
  have hrd : st0.decks.length ≤ a4.2 := by
    rw [ha4]; exact h3.decksLen
  have hmt1 : StorePreserves st0 (mockTurn ext fuel (movesO.getD (topK.getD i 0) default)
      (valsO.getD (topK.getD i 0) Flt.nan) a1.2 a2.2 a3.2 a4.2 turnOf a4.1).1 :=
    storePreserves_mockTurn ext fuel _ _ _ _ _ _ _ h4 hrb hrs hrd
  split
  · exact hmt1
  · set r1 := mockTurn ext fuel (movesO.getD (topK.getD i 0) default)
      (valsO.getD (topK.getD i 0) Flt.nan) a1.2 a2.2 a3.2 a4.2 turnOf a4.1 with hr1
    set a5 := r1.1.allocDeck (ext.createDummyDeck (r1.1.getDeck a4.2)) with ha5
    have h5 : StorePreserves st0 a5.1 := by
      rw [ha5]; exact storePreserves_allocDeck hmt1 _
    set a6 := a5.1.allocDeck (ext.createDummyDeck (a5.1.getDeck a4.2)) with ha6
    have h6 : StorePreserves st0 a6.1 := by
      rw [ha6]; exact storePreserves_allocDeck h5 _
    have hrdum2 : st0.decks.length ≤ a6.2 := by
      rw [ha6]; exact h5.decksLen
    exact storePreserves_mockTurn ext fuel _ _ _ _ _ _ _ h6 hrb hros hrdum2

/-- Frame lemma for a 3-ply search branch. -/
theorem storePreserves_branchStep3 [Inhabited B] [Inhabited S] [Inhabited D] [Inhabited M]
    (ext : SearchExt B S D M MC DB MS TP V RT Row)
    (fuel rbO rdO rsO rosO turnOf : Nat) (movesO : List M) (valsO : List Flt)
    (topK : List Nat) {st0 : Store B S D} (acc : Store B S D × List Flt) (i : Nat)
    (h : StorePreserves st0 acc.1) :
    StorePreserves st0
      (branchStep3 ext fuel rbO rdO rsO rosO turnOf movesO valsO topK acc i).1 := by
  simp only [branchStep3]
  set a1 := acc.1.allocBoard (acc.1.getBoard rbO) with ha1
  set a2 := a1.1.allocScore (a1.1.getScore rsO) with ha2
  set a3 := a2.1.allocScore (a2.1.getScore rosO) with ha3
  set a4 := a3.1.allocDeck (a3.1.getDeck rdO) with ha4
  have h1 : StorePreserves st0 a1.1 := by
    rw [ha1]; exact storePreserves_allocBoard h _
  have h2 : StorePreserves st0 a2.1 := by
    rw [ha2]; exact storePreserves_allocScore h1 _
  have h3 : StorePreserves st0 a3.1 := by
    rw [ha3]; exact storePreserves_allocScore h2 _
  have h4 : StorePreserves st0 a4.1 := by
    rw [ha4]; exact storePreserves_allocDeck h3 _
  have hrb : st0.boards.length ≤ a1.2 := by
    rw [ha1]; exact h.boardsLen
  have hrs : st0.scores.length ≤ a2.2 := by
    rw [ha2]; exact h1.scoresLen
  have hros : st0.scores.length ≤ a3.2 := by
    rw [ha3]; exact h2.scoresLen
  have hrd : st0.decks.length ≤ a4.2 := by
    rw [ha4]; exact h3.decksLen
  have hmt1 : StorePreserves st0 (mockTurn ext fuel (movesO.getD (topK.getD i 0) default)
      (valsO.getD (topK.getD i 0) Flt.nan) a1.2 a2.2 a3.2 a4.2 turnOf a4.1).1 :=
    storePreserves_mockTurn ext fuel _ _ _ _ _ _ _ h4 hrb hrs hrd
  split
  · exact hmt1
  · set r1 := mockTurn ext fuel (movesO.getD (topK.getD i 0) default)
      (valsO.getD (topK.getD i 0) Flt.nan) a1.2 a2.2 a3.2 a4.2 turnOf a4.1 with hr1
    set a5 := r1.1.allocDeck (ext.createDummyDeck (r1.1.getDeck a4.2)) with ha5
    have h5 : StorePreserves st0 a5.1 := by
      rw [ha5]; exact storePreserves_allocDeck hmt1 _
    set a6 := a5.1.allocDeck (ext.createDummyDeck (a5.1.getDeck a4.2)) with ha6
    have h6 : StorePreserves st0 a6.1 := by
      rw [ha6]; exact storePreserves_allocDeck h5 _
    have hrdum2 : st0.decks.length ≤ a6.2 := by
      rw [ha6]; exact h5.decksLen
    split
    · exact storePreserves_mockTurn ext fuel _ _ _ _ _ _ _ h6 hrb hros hrdum2
    · exact storePreserves_mockTurn ext fuel _ _ _ _ _ _ _
        (storePreserves_mockTurn ext fuel _ _ _ _ _ _ _ h6 hrb hros hrdum2) hrb hrs hrd

/-- The 2-ply branch fold preserves the original store. -/
theorem storePreserves_foldl_branch2 [Inhabited B] [Inhabited S] [Inhabited D] [Inhabited M]
    (ext : SearchExt B S D M MC DB MS TP V RT Row)
    (fuel rbO rdO rsO rosO turnOf : Nat) (movesO : List M) (valsO : List Flt)
    (topK : List Nat) {st0 : Store B S D} :
    ∀ (l : List Nat) (acc : Store B S D × List Flt), StorePreserves st0 acc.1 →
      StorePreserves st0
        (l.foldl (branchStep2 ext fuel rbO rdO rsO rosO turnOf movesO valsO topK) acc).1 := by
  intro l
  induction l with
  | nil => intro acc h; simpa using h
  | cons x t ih =>
    intro acc h
    rw [List.foldl_cons]
    exact ih _ (storePreserves_branchStep2 ext fuel rbO rdO rsO rosO turnOf
      movesO valsO topK acc x h)

/-- The 3-ply branch fold preserves the original store. -/
theorem storePreserves_foldl_branch3 [Inhabited B] [Inhabited S] [Inhabited D] [Inhabited M]
    (ext : SearchExt B S D M MC DB MS TP V RT Row)
    (fuel rbO rdO rsO rosO turnOf : Nat) (movesO : List M) (valsO : List Flt)
    (topK : List Nat) {st0 : Store B S D} :
    ∀ (l : List Nat) (acc : Store B S D × List Flt), StorePreserves st0 acc.1 →
      StorePreserves st0
        (l.foldl (branchStep3 ext fuel rbO rdO rsO rosO turnOf movesO valsO topK) acc).1 := by
  intro l
  induction l with
  | nil => intro acc h; simpa using h
  | cons x t ih =>
    intro acc h
    rw [List.foldl_cons]
    exact ih _ (storePreserves_branchStep3 ext fuel rbO rdO rsO rosO turnOf
      movesO valsO topK acc x h)

/-- C1 (confirmed): a call to `RL2PlySearch.choose_move` or
`RL3PlySearch.choose_move` leaves the live game state it was given
unchanged — the cells holding `board_original`, `deck_original`,
`score_original` and `other_score_original` hold the same objects when
the call returns, for every rules-engine instantiation, every fuel
bound on the mock-turn loops and every starting store: all simulation
acts on the fresh cells produced by `get_copy` / `create_dummy_deck`,
and `mock_move` writes only through the cell references it is handed. -/
theorem rl_search_preserves_originals [Inhabited B] [Inhabited S] [Inhabited D] [Inhabited M]
    (ext : SearchExt B S D M MC DB MS TP V RT Row) (fuel rbO rdO rsO rosO turnOf : Nat)
    (st0 : Store B S D) (hrb : rbO < st0.boards.length) (hrd : rdO < st0.decks.length)
    (hrs : rsO < st0.scores.length) (hros : rosO < st0.scores.length) :
    ((chooseMove2Ply ext fuel rbO rdO rsO rosO turnOf st0).1.boards[rbO]? = st0.boards[rbO]? ∧
     (chooseMove2Ply ext fuel rbO rdO rsO rosO turnOf st0).1.decks[rdO]? = st0.decks[rdO]? ∧
     (chooseMove2Ply ext fuel rbO rdO rsO rosO turnOf st0).1.scores[rsO]? = st0.scores[rsO]? ∧
     (chooseMove2Ply ext fuel rbO rdO rsO rosO turnOf st0).1.scores[rosO]? =
       st0.scores[rosO]?) ∧
    ((chooseMove3Ply ext fuel rbO rdO rsO rosO turnOf st0).1.boards[rbO]? = st0.boards[rbO]? ∧
     (chooseMove3Ply ext fuel rbO rdO rsO rosO turnOf st0).1.decks[rdO]? = st0.decks[rdO]? ∧
     (chooseMove3Ply ext fuel rbO rdO rsO rosO turnOf st0).1.scores[rsO]? = st0.scores[rsO]? ∧
     (chooseMove3Ply ext fuel rbO rdO rsO rosO turnOf st0).1.scores[rosO]? =
       st0.scores[rosO]?) := by
  have h2 : StorePreserves st0 (chooseMove2Ply ext fuel rbO rdO rsO rosO turnOf st0).1 := by
    simp only [chooseMove2Ply]
    exact storePreserves_foldl_branch2 ext fuel rbO rdO rsO rosO turnOf _ _ _ _ _
      (storePreserves_refl st0)
  have h3 : StorePreserves st0 (chooseMove3Ply ext fuel rbO rdO rsO rosO turnOf st0).1 := by
    simp only [chooseMove3Ply]
    exact storePreserves_foldl_branch3 ext fuel rbO rdO rsO rosO turnOf _ _ _ _ _
      (storePreserves_refl st0)
  exact ⟨⟨h2.boardsEq rbO hrb, h2.decksEq rdO hrd, h2.scoresEq rsO hrs, h2.scoresEq rosO hros⟩,
    ⟨h3.boardsEq rbO hrb, h3.decksEq rdO hrd, h3.scoresEq rsO hrs, h3.scoresEq rosO hros⟩⟩

end SearchFrame

/-- Witness for C1 at the concrete run (one live board, two live
scores, one live deck; the 2-ply and 3-ply searches executed with fuel
2 leave all four original cells unchanged). -/
theorem rl_search_preserves_originals_witness :
    (0 < stRun.boards.length ∧ 0 < stRun.decks.length ∧ 0 < stRun.scores.length ∧
      1 < stRun.scores.length) ∧
    (((chooseMove2Ply extRun 2 0 0 0 1 1 stRun).1.boards[0]? = stRun.boards[0]? ∧
      (chooseMove2Ply extRun 2 0 0 0 1 1 stRun).1.decks[0]? = stRun.decks[0]? ∧
      (chooseMove2Ply extRun 2 0 0 0 1 1 stRun).1.scores[0]? = stRun.scores[0]? ∧
      (chooseMove2Ply extRun 2 0 0 0 1 1 stRun).1.scores[1]? = stRun.scores[1]?) ∧
     ((chooseMove3Ply extRun 2 0 0 0 1 1 stRun).1.boards[0]? = stRun.boards[0]? ∧
      (chooseMove3Ply extRun 2 0 0 0 1 1 stRun).1.decks[0]? = stRun.decks[0]? ∧
      (chooseMove3Ply extRun 2 0 0 0 1 1 stRun).1.scores[0]? = stRun.scores[0]? ∧
      (chooseMove3Ply extRun 2 0 0 0 1 1 stRun).1.scores[1]? = stRun.scores[1]?)) :=
  ⟨⟨by decide, by decide, by decide, by decide⟩,
    rl_search_preserves_originals extRun 2 0 0 0 1 1 stRun
      (by decide) (by decide) (by decide) (by decide)⟩
